import Mathlib

/-!
Shallow embedding of the gameplay simulation core of the `holeio_modern`
repository (Rust), for checking the natural-language specification against
the code.

Conventions of the embedding:
* `f32` values are modelled as exact real numbers (`ℝ`); machine rounding is
  not modelled.
* Rust structs become Lean structures; `&mut` methods become functions
  returning the updated value.
* The external `rand::StdRng` pseudo-random generator (a third-party crate,
  not part of this repository) is modelled as an abstract value stream
  `ℕ → ℝ` together with a position counter: seeding with the same seed twice
  yields the same stream, so two runs with one seed share one stream.
* The process-wide `static mut NEXT_ID` counters are modelled as explicit
  counter arguments threaded through the functions that allocate ids.
-/

namespace HoleGame

/-- 2-d vector (macroquad `Vec2`). -/
structure Vec2 where
  x : ℝ
  y : ℝ

/-- `Vec2::length`: Euclidean norm. -/
noncomputable def Vec2.length (v : Vec2) : ℝ :=
  Real.sqrt (v.x * v.x + v.y * v.y)

/-- `Vec2::normalize`. -/
noncomputable def Vec2.normalize (v : Vec2) : Vec2 :=
  ⟨v.x / v.length, v.y / v.length⟩

/-- RGBA color (macroquad `Color`), over the scalar type of the embedding. -/
structure HColor (α : Type) where
  r : α
  g : α
  b : α
  a : α

/-- `Hole` entity from `src/gameplay/hole.rs`. -/
structure Hole where
  id : ℕ
  x : ℝ
  y : ℝ
  radius : ℝ
  velocity : Vec2
  name : String
  color : HColor ℝ
  is_player : Bool
  is_alive : Bool
  area : ℝ
  score : ℤ
  eliminations : ℤ
  dash_cooldown : ℝ
  dash_active : ℝ
  respawn_timer : ℝ
  invincible : ℝ
  skin_pattern : ℕ
  border_style : ℕ
  pulse_timer : ℝ

namespace Hole

/-- `Hole::INITIAL_RADIUS`. -/
def INITIAL_RADIUS : ℝ := 25

/-- `Hole::MAX_RADIUS`. -/
def MAX_RADIUS : ℝ := 200

/-- `Hole::new` (the global id counter is passed explicitly as `id`). -/
noncomputable def new (id : ℕ) (x y : ℝ) (name : String) (color : HColor ℝ)
    (is_player : Bool) : Hole :=
  { id := id, x := x, y := y, radius := INITIAL_RADIUS, velocity := ⟨0, 0⟩,
    name := name, color := color, is_player := is_player, is_alive := true,
    area := Real.pi * INITIAL_RADIUS * INITIAL_RADIUS, score := 0,
    eliminations := 0, dash_cooldown := 0, dash_active := 0,
    respawn_timer := 0, invincible := 0, skin_pattern := 0, border_style := 0,
    pulse_timer := 0 }

/-- First block of `Hole::update`: decrement the dash cooldown, dash active
and invincibility timers when positive. -/
noncomputable def tickTimers (h : Hole) (dt : ℝ) : Hole :=
  let h := if 0 < h.dash_cooldown then
    { h with dash_cooldown := h.dash_cooldown - dt } else h
  let h := if 0 < h.dash_active then
    { h with dash_active := h.dash_active - dt } else h
  if 0 < h.invincible then { h with invincible := h.invincible - dt } else h

/-- Dead branch of `Hole::update` (taken while `respawn_timer > 0`): advance
the countdown and on expiry flip to alive with 1 second of invincibility. -/
noncomputable def updateDead (h : Hole) (dt : ℝ) : Hole :=
  if h.respawn_timer - dt ≤ 0 then
    { h with respawn_timer := h.respawn_timer - dt, is_alive := true,
             invincible := 1 }
  else { h with respawn_timer := h.respawn_timer - dt }

/-- Alive branch of `Hole::update`: pulse timer, movement integration with
size penalty and dash multiplier, world clamp (Rust `clamp(lo, hi)` is
`min (max · lo) hi`). -/
noncomputable def updateMove (h : Hole) (dt world_width world_height move_speed : ℝ) :
    Hole :=
  let h := { h with pulse_timer := h.pulse_timer + dt }
  let size_penalty := min (h.radius / 50) 1.5
  let effective_speed := move_speed / (1 + size_penalty * 0.3)
  let dash_mult : ℝ := if 0 < h.dash_active then 2.5 else 1
  let nx := h.x + h.velocity.x * effective_speed * dash_mult * dt
  let ny := h.y + h.velocity.y * effective_speed * dash_mult * dt
  { h with
    x := min (max nx h.radius) (world_width - h.radius),
    y := min (max ny h.radius) (world_height - h.radius) }

/-- `Hole::update`: timers, dead-state early return with respawn flip, else
movement. -/
noncomputable def update (h : Hole) (dt world_width world_height move_speed : ℝ) :
    Hole :=
  if 0 < (h.tickTimers dt).respawn_timer then (h.tickTimers dt).updateDead dt
  else (h.tickTimers dt).updateMove dt world_width world_height move_speed

/-- `Hole::set_velocity`. -/
noncomputable def set_velocity (h : Hole) (vel : Vec2) : Hole :=
  if 0.01 < vel.length then { h with velocity := vel.normalize }
  else { h with velocity := ⟨0, 0⟩ }

/-- `Hole::try_dash`: returns the success flag together with the updated hole. -/
noncomputable def try_dash (h : Hole) (dash_cooldown dash_duration : ℝ) :
    Bool × Hole :=
  if h.dash_cooldown ≤ 0 ∧ 0.01 < h.velocity.length then
    (true, { h with dash_cooldown := dash_cooldown,
                    dash_active := dash_duration })
  else (false, h)

/-- `Hole::grow`. -/
noncomputable def grow (h : Hole) (mass growth_multiplier : ℝ) : Hole :=
  let area := h.area + mass * growth_multiplier
  { h with area := area,
           radius := min (Real.sqrt (area / Real.pi)) MAX_RADIUS,
           score := h.score + 1 }

/-- `Hole::consume_hole`. -/
noncomputable def consume_hole (h other : Hole) : Hole :=
  let area := h.area + other.area * 0.5
  { h with area := area,
           radius := min (Real.sqrt (area / Real.pi)) MAX_RADIUS,
           eliminations := h.eliminations + 1 }

/-- `Hole::can_consume_hole` (MARGIN = 1.2). -/
def can_consume_hole (h other : Hole) : Prop :=
  h.is_alive = true ∧ other.is_alive = true ∧ ¬(0 < other.invincible) ∧
    other.radius * 1.2 < h.radius

/-- `Hole::overlaps_hole`. -/
noncomputable def dist_to (h other : Hole) : ℝ :=
  Real.sqrt ((h.x - other.x) * (h.x - other.x) + (h.y - other.y) * (h.y - other.y))

/-- `Hole::overlaps_hole`: centers closer than `0.6 * (r1 + r2)`. -/
noncomputable def overlaps_hole (h other : Hole) : Prop :=
  dist_to h other < (h.radius + other.radius) * 0.6

/-- `Hole::die`. -/
noncomputable def die (h : Hole) (respawn_time : ℝ) : Hole :=
  { h with is_alive := false, respawn_timer := respawn_time,
           area := Real.pi * INITIAL_RADIUS * INITIAL_RADIUS,
           radius := INITIAL_RADIUS }

/-- `Hole::respawn`. -/
def respawn (h : Hole) (x y : ℝ) : Hole :=
  { h with x := x, y := y, is_alive := true, invincible := 1 }

/-- `Hole::can_capture_at` (K_FIT = 0.92, K_CAPTURE = 1.05): the early
`return false` on an oversized object becomes the first conjunct. -/
noncomputable def can_capture_at (h : Hole) (obj_x obj_y obj_size : ℝ) : Prop :=
  obj_size ≤ h.radius * 0.92 ∧
    Real.sqrt ((obj_x - h.x) * (obj_x - h.x) + (obj_y - h.y) * (obj_y - h.y)) ≤
      h.radius * 1.05

end Hole

/-- Concrete hole value used to instantiate theorems: alive, zero timers,
zero velocity, with the given id, position, radius and area. -/
noncomputable def mkTestHole (id : ℕ) (x y radius area : ℝ) : Hole :=
  { id := id, x := x, y := y, radius := radius, velocity := ⟨0, 0⟩,
    name := "h", color := ⟨0, 0, 0, 1⟩, is_player := false, is_alive := true,
    area := area, score := 0, eliminations := 0, dash_cooldown := 0,
    dash_active := 0, respawn_timer := 0, invincible := 0, skin_pattern := 0,
    border_style := 0, pulse_timer := 0 }

/-- A dead hole waiting on its respawn countdown, with a running dash
cooldown. -/
noncomputable def deadHole : Hole :=
  { mkTestHole 0 100 100 25 (Real.pi * 625) with
    is_alive := false, respawn_timer := 5, dash_cooldown := 1 }

/-- A dash-ready hole moving right at unit velocity. -/
noncomputable def dashReadyHole : Hole :=
  { mkTestHole 1 100 100 25 (Real.pi * 625) with velocity := ⟨1, 0⟩ }

/-- Hole A of the combat scenario: radius 100 at the origin. -/
noncomputable def holeA : Hole := mkTestHole 0 0 0 100 (Real.pi * 10000)

/-- Hole B of the combat scenario: radius 70, center 50 units from A. -/
noncomputable def holeB : Hole := mkTestHole 1 50 0 70 (Real.pi * 4900)

/-! ## World objects (`src/world/objects.rs`) and the spatial grid
(`src/world/spatial.rs`).

The spatial layer is polymorphic over an ordered field with a floor
function so that it can be read both at `ℚ` and at `ℝ` (the gameplay layer
instantiates it at `ℝ`). -/

/-- `ObjectType` from `src/world/objects.rs`. -/
inductive ObjectType where
  | Building
  | Car
  | Tree
  | Person
  | Lamppost
  | Hydrant
  | TrashCan
  | Bench
deriving DecidableEq

/-- `ObjectType::base_size`. -/
def ObjectType.base_size : ObjectType → ℝ
  | .Building => 60
  | .Car => 18
  | .Tree => 12
  | .Person => 5
  | .Lamppost => 6
  | .Hydrant => 4
  | .TrashCan => 5
  | .Bench => 8

/-- `ObjectType::color`. -/
def ObjectType.type_color : ObjectType → HColor ℝ
  | .Building => ⟨0.45, 0.45, 0.55, 1⟩
  | .Car => ⟨0.8, 0.2, 0.2, 1⟩
  | .Tree => ⟨0.2, 0.6, 0.2, 1⟩
  | .Person => ⟨0.9, 0.7, 0.5, 1⟩
  | .Lamppost => ⟨0.3, 0.3, 0.3, 1⟩
  | .Hydrant => ⟨0.9, 0.1, 0.1, 1⟩
  | .TrashCan => ⟨0.3, 0.5, 0.3, 1⟩
  | .Bench => ⟨0.5, 0.35, 0.2, 1⟩

/-- `ObjectState` from `src/world/objects.rs`. -/
inductive ObjectState (α : Type) where
  | Normal
  | Falling (progress target_x target_y rot : α)
  | Consumed

/-- True exactly on the `Falling` constructor (`matches!(.., Falling {..})`). -/
def ObjectState.isFalling {α : Type} : ObjectState α → Bool
  | .Falling _ _ _ _ => true
  | _ => false

/-- `WorldObject` from `src/world/objects.rs`. -/
structure WorldObject (α : Type) where
  id : ℕ
  x : α
  y : α
  width : α
  height : α
  size : α
  mass : α
  obj_type : ObjectType
  state : ObjectState α
  consumed : Bool
  color : HColor α
  rotation : α

section Spatial

variable {α : Type} [LinearOrderedField α] [FloorRing α]

/-- `WorldObject::can_be_swallowed` (K_FIT = 0.92). -/
def WorldObject.can_be_swallowed (o : WorldObject α) (hole_radius : α) : Prop :=
  o.size ≤ hole_radius * 0.92

/-- `WorldObject::start_falling`. -/
def WorldObject.start_falling (o : WorldObject α) (hole_x hole_y : α) :
    WorldObject α :=
  { o with state := .Falling 0 hole_x hole_y 0 }

/-- Axis-aligned rectangle (macroquad `Rect`). -/
structure Rect (α : Type) where
  x : α
  y : α
  w : α
  h : α

/-- `CellCoord` from `src/world/spatial.rs`. -/
structure CellCoord where
  x : ℤ
  y : ℤ
deriving DecidableEq

/-- `CellCoord::from_position` with CELL_SIZE = 100. -/
def CellCoord.from_position (x y : α) : CellCoord :=
  ⟨⌊x / 100⌋, ⌊y / 100⌋⟩

/-- The grid's `HashMap<CellCoord, Vec<usize>>`, modelled as a total
function with `[]` as the default value of absent keys. -/
def SpatialGrid : Type := CellCoord → List ℕ

/-- Cell of the lower-left corner of an object's bounding box. -/
def objMinCell (o : WorldObject α) : CellCoord :=
  CellCoord.from_position (o.x - o.width / 2) (o.y - o.height / 2)

/-- Cell of the upper-right corner of an object's bounding box. -/
def objMaxCell (o : WorldObject α) : CellCoord :=
  CellCoord.from_position (o.x + o.width / 2) (o.y + o.height / 2)

/-- Membership of a cell in the inclusive rectangle of cells between `lo`
and `hi` (the double loop `lo.x..=hi.x`, `lo.y..=hi.y`). -/
def cellBetween (lo hi c : CellCoord) : Prop :=
  lo.x ≤ c.x ∧ c.x ≤ hi.x ∧ lo.y ≤ c.y ∧ c.y ≤ hi.y

instance (lo hi c : CellCoord) : Decidable (cellBetween lo hi c) := by
  unfold cellBetween; infer_instance

/-- Net effect on the cell map of the double push loop of
`SpatialGrid::build` for one object: index `idx` is appended to every cell
between `lo` and `hi`. -/
def insertObject (cells : SpatialGrid) (idx : ℕ) (lo hi : CellCoord) :
    SpatialGrid :=
  fun c => if cellBetween lo hi c then cells c ++ [idx] else cells c

/-- `SpatialGrid::build`: clear, then insert every non-consumed object into
each cell its bounding box overlaps. -/
def SpatialGrid.build (objects : List (WorldObject α)) : SpatialGrid :=
  objects.enum.foldl
    (fun cells p =>
      if p.2.consumed then cells
      else insertObject cells p.1 (objMinCell p.2) (objMaxCell p.2))
    (fun _ => [])

/-- The list `[lo, lo+1, ..., hi]` of integers. -/
def intRange (lo hi : ℤ) : List ℤ :=
  (List.range (hi + 1 - lo).toNat).map (fun k : ℕ => lo + (k : ℤ))

/-- Cells visited by the query double loop, in visit order
(`cx` outer, `cy` inner). -/
def coordsBetween (lo hi : CellCoord) : List CellCoord :=
  (intRange lo.x hi.x).flatMap
    (fun cx => (intRange lo.y hi.y).map (fun cy => ⟨cx, cy⟩))

/-- First-occurrence deduplication (the `seen` HashSet of the queries). -/
def dedupFirst (seen : List ℕ) : List ℕ → List ℕ
  | [] => []
  | n :: rest =>
    if n ∈ seen then dedupFirst seen rest else n :: dedupFirst (n :: seen) rest

/-- Shared body of `query_radius` and `query_rect`: walk the cells between
`lo` and `hi`, collecting unseen indices in visit order. -/
def SpatialGrid.queryCells (cells : SpatialGrid) (lo hi : CellCoord) :
    List ℕ :=
  dedupFirst [] ((coordsBetween lo hi).flatMap cells)

/-- `SpatialGrid::query_radius` (bounding-square approximation). -/
def SpatialGrid.query_radius (cells : SpatialGrid) (x y radius : α) : List ℕ :=
  cells.queryCells (CellCoord.from_position (x - radius) (y - radius))
    (CellCoord.from_position (x + radius) (y + radius))

/-- `SpatialGrid::query_rect`. -/
def SpatialGrid.query_rect (cells : SpatialGrid) (r : Rect α) : List ℕ :=
  cells.queryCells (CellCoord.from_position r.x r.y)
    (CellCoord.from_position (r.x + r.w) (r.y + r.h))

end Spatial

/-! ## Swallow / combat resolver (`src/gameplay/swallow.rs`) -/

/-- `VfxType` events (the VFX sink is fire-and-forget; the system is the
list of spawned events). -/
inductive VfxType where
  | SwallowParticles (x y : ℝ) (color : HColor ℝ) (count : ℕ)
  | Ripple (x y radius : ℝ) (color : HColor ℝ)

/-- `GROWTH_MULTIPLIER` from `src/gameplay/swallow.rs`. -/
def GROWTH_MULTIPLIER : ℝ := 0.15

noncomputable instance (h : Hole) (ox oy os : ℝ) :
    Decidable (h.can_capture_at ox oy os) := by
  unfold Hole.can_capture_at; infer_instance

noncomputable instance (h o : Hole) : Decidable (h.overlaps_hole o) := by
  unfold Hole.overlaps_hole; infer_instance

noncomputable instance (h o : Hole) : Decidable (h.can_consume_hole o) := by
  unfold Hole.can_consume_hole; infer_instance

/-- `WorldObject::update_falling`: advance progress and spin, ease toward
the target, and on `progress ≥ 1` flip to Consumed, reporting completion. -/
noncomputable def WorldObject.update_falling (o : WorldObject ℝ) (dt : ℝ) :
    WorldObject ℝ × Bool :=
  match o.state with
  | .Falling progress tx ty rot =>
    let progress := progress + dt * 3
    let rot := rot + dt * 15
    let t := min progress 1
    let ease_t := t * t
    let nx := o.x + (tx - o.x) * ease_t * 0.3
    let ny := o.y + (ty - o.y) * ease_t * 0.3
    if 1 ≤ progress then
      ({ o with x := nx, y := ny, rotation := rot, state := .Consumed,
                consumed := true }, true)
    else
      ({ o with x := nx, y := ny, rotation := rot,
                state := .Falling progress tx ty rot }, false)
  | _ => (o, false)

/-- Body of the `process_swallow` loop for one candidate index: skip
consumed or falling objects, and on a successful capture start the falling
animation, record the id, and spawn the particle burst and the ripple. -/
noncomputable def swallowStep (hole : Hole)
    (st : List (WorldObject ℝ) × List ℕ × List VfxType) (idx : ℕ) :
    List (WorldObject ℝ) × List ℕ × List VfxType :=
  match st.1[idx]? with
  | none => st
  | some obj =>
    if obj.consumed = true ∨ obj.state.isFalling = true then st
    else if hole.can_capture_at obj.x obj.y obj.size then
      (st.1.set idx (obj.start_falling hole.x hole.y),
       st.2.1 ++ [obj.id],
       st.2.2 ++
         [VfxType.SwallowParticles obj.x obj.y obj.color
            (min (⌈obj.size / 5⌉.toNat) 20),
          VfxType.Ripple hole.x hole.y hole.radius hole.color])
    else st

/-- `process_swallow`: no-op on a dead hole; otherwise run the capture loop
over the grid query at radius `2 * hole.radius`. The hole itself is
returned unchanged (the source never writes through its `&mut Hole`). -/
noncomputable def process_swallow (hole : Hole) (objects : List (WorldObject ℝ))
    (spatial : SpatialGrid) (vfx : List VfxType) :
    Hole × List (WorldObject ℝ) × List ℕ × List VfxType :=
  if hole.is_alive = false then (hole, objects, [], vfx)
  else
    let nearby := spatial.query_radius hole.x hole.y (hole.radius * 2)
    let res := nearby.foldl (swallowStep hole) (objects, [], vfx)
    (hole, res.1, res.2.1, res.2.2)

/-- Body of the `update_falling_objects` loop for one object: a falling
object advances and, when it completes, the hole grows by
`mass * GROWTH_MULTIPLIER`. -/
noncomputable def fallStep (dt : ℝ) (st : Hole × List (WorldObject ℝ))
    (o : WorldObject ℝ) : Hole × List (WorldObject ℝ) :=
  if o.state.isFalling = true then
    ((if (o.update_falling dt).2 = true then
        st.1.grow o.mass GROWTH_MULTIPLIER else st.1),
     st.2 ++ [(o.update_falling dt).1])
  else (st.1, st.2 ++ [o])

/-- `update_falling_objects`: single pass of `fallStep` over the objects. -/
noncomputable def update_falling_objects (hole : Hole)
    (objects : List (WorldObject ℝ)) (dt : ℝ) : Hole × List (WorldObject ℝ) :=
  objects.foldl (fallStep dt) (hole, [])

/-- The object produced from `o` by one `update_falling_objects` pass. -/
noncomputable def fallResult (dt : ℝ) (o : WorldObject ℝ) : WorldObject ℝ :=
  if o.state.isFalling = true then (o.update_falling dt).1 else o

/-- Whether one `update_falling_objects` pass completes object `o`
(it is falling and its progress reaches 1). -/
noncomputable def completes (dt : ℝ) (o : WorldObject ℝ) : Bool :=
  o.state.isFalling && (o.update_falling dt).2

/-- The coupling invariant of the object state machine: the `consumed` flag
implies the `Consumed` state (all reachable objects satisfy it). -/
def InvO (o : WorldObject ℝ) : Prop :=
  o.consumed = true → o.state = ObjectState.Consumed

/-- Candidate-pair test of `process_hole_combat` for the ordered pair
`(i, j)`: both alive, overlapping, and the consumption margin checked for
`i` over `j` first, then `j` over `i`. -/
noncomputable def pairElim (holes : List Hole) (i j : ℕ) : List (ℕ × ℕ) :=
  match holes[i]?, holes[j]? with
  | some hi, some hj =>
    if hi.is_alive = false ∨ hj.is_alive = false then []
    else if ¬ hi.overlaps_hole hj then []
    else if hi.can_consume_hole hj then [(i, j)]
    else if hj.can_consume_hole hi then [(j, i)]
    else []
  | _, _ => []

/-- First phase of `process_hole_combat`: collect the (winner, loser) pairs
over all `i < j`, in enumeration order. -/
noncomputable def collectEliminations (holes : List Hole) : List (ℕ × ℕ) :=
  (List.range holes.length).flatMap
    (fun i =>
      (List.range' (i + 1) (holes.length - (i + 1))).flatMap (pairElim holes i))

/-- Second phase of `process_hole_combat`, for one (winner, loser) pair:
spawn VFX, transfer half the loser's area (note: the source recomputes the
winner's radius WITHOUT the `MAX_RADIUS` cap here, unlike
`Hole::consume_hole`), then kill or deactivate the loser. -/
noncomputable def applyElimination (allow_respawn : Bool) (respawn_time : ℝ)
    (player_idx : ℕ) (st : List Hole × List VfxType × Option ℕ)
    (wl : ℕ × ℕ) : List Hole × List VfxType × Option ℕ :=
  match st.1[wl.1]?, st.1[wl.2]? with
  | some hw, some hl =>
    let vfx := st.2.1 ++
      [VfxType.SwallowParticles hl.x hl.y hl.color 30,
       VfxType.Ripple hw.x hw.y (hw.radius * 1.5) hw.color]
    let loser_area := hl.area
    let hw := { hw with
      area := hw.area + loser_area * 0.5,
      radius := Real.sqrt ((hw.area + loser_area * 0.5) / Real.pi),
      eliminations := hw.eliminations + 1 }
    let holes := st.1.set wl.1 hw
    let holes :=
      if allow_respawn then holes.set wl.2 (hl.die respawn_time)
      else holes.set wl.2 { hl with is_alive := false }
    (holes, vfx, if wl.2 = player_idx then some wl.1 else st.2.2)
  | _, _ => st

/-- `process_hole_combat`: collect all winning pairs, then apply them in
enumeration order; returns the final holes, the VFX events, and the
winner's index when the player was a loser. -/
noncomputable def process_hole_combat (holes : List Hole) (player_idx : ℕ)
    (vfx : List VfxType) (allow_respawn : Bool) (respawn_time : ℝ) :
    List Hole × List VfxType × Option ℕ :=
  (collectEliminations holes).foldl
    (applyElimination allow_respawn respawn_time player_idx)
    (holes, vfx, none)

/-- One step of the swallow resolver acting on the object list: either a
`process_swallow` pass for some hole and grid, or an
`update_falling_objects` pass for some hole and time step. -/
inductive ResolverOp where
  | swallow (hole : Hole) (spatial : SpatialGrid) (vfx : List VfxType)
  | fall (hole : Hole) (dt : ℝ)

/-- Effect of one resolver step on the object list. -/
noncomputable def applyResolverOp (objects : List (WorldObject ℝ)) :
    ResolverOp → List (WorldObject ℝ)
  | .swallow h s v => (process_swallow h objects s v).2.1
  | .fall h dt => (update_falling_objects h objects dt).2

/-- Effect of a sequence of resolver steps on the object list. -/
noncomputable def applyResolverOps (objects : List (WorldObject ℝ))
    (ops : List ResolverOp) : List (WorldObject ℝ) :=
  ops.foldl applyResolverOp objects

/-- Hole A of the radius-cap scenario: radius 190, area `36100 π`. -/
noncomputable def holeBigA : Hole := mkTestHole 0 0 0 190 (36100 * Real.pi)

/-- Hole B of the radius-cap scenario: radius 150, area `22500 π`, at the
same position as A. -/
noncomputable def holeBigB : Hole := mkTestHole 1 0 0 150 (22500 * Real.pi)

/-- A normal, capturable test object at the origin. -/
noncomputable def testObjNormal : WorldObject ℝ :=
  { id := 7, x := 0, y := 0, width := 10, height := 10, size := 10, mass := 10,
    obj_type := .Car, state := .Normal, consumed := false, color := ⟨0, 0, 0, 1⟩,
    rotation := 0 }

/-- A consumed test object. -/
noncomputable def testObjConsumed : WorldObject ℝ :=
  { testObjNormal with id := 8, state := .Consumed, consumed := true }

/-- A falling test object halfway through its animation. -/
noncomputable def testObjFalling : WorldObject ℝ :=
  { testObjNormal with id := 9, state := .Falling 0.5 0 0 0 }

/-- An alive test hole of radius 25 at the origin. -/
noncomputable def testHole : Hole := mkTestHole 2 0 0 25 (625 * Real.pi)

/-- A grid mapping every cell to object index 0. -/
def testCells : SpatialGrid := fun _ => [0]

/-! ## Leaderboard (`src/gameplay/scoring.rs`) -/

/-- `LeaderboardEntry`. -/
structure LeaderboardEntry where
  id : ℕ
  name : String
  size : ℝ
  score : ℤ
  eliminations : ℤ
  is_player : Bool
  rank_change : ℤ

/-- The `previous_ranks` HashMap, as a total function to `Option`. -/
def PrevRanks : Type := ℕ → Option ℕ

/-- HashMap insert (later inserts shadow earlier ones). -/
def PrevRanks.insert (m : PrevRanks) (id rank : ℕ) : PrevRanks :=
  fun k => if k = id then some rank else m k

/-- The save-previous-ranks loop of `Leaderboard::update`: insert
`entry.id -> index` for each current entry, indices counted from `i`. -/
def savePrevAux (m : PrevRanks) : List LeaderboardEntry → ℕ → PrevRanks
  | [], _ => m
  | e :: rest, i => savePrevAux (m.insert e.id i) rest (i + 1)

/-- `Leaderboard`. -/
structure Leaderboard where
  entries : List LeaderboardEntry
  previous_ranks : PrevRanks

/-- `Leaderboard::new`. -/
def Leaderboard.new : Leaderboard := ⟨[], fun _ => none⟩

/-- The entry built from a hole during the rebuild loop
(`rank_change` starts at 0). -/
def mkEntry (h : Hole) : LeaderboardEntry :=
  ⟨h.id, h.name, h.radius, h.score, h.eliminations, h.is_player, 0⟩

/-- Stable insertion into a descending-by-size list: the new element goes
after every earlier element of equal or larger size. Models Rust's stable
`sort_by(|a, b| b.size.partial_cmp(&a.size))`. -/
noncomputable def insertBySize (e : LeaderboardEntry) :
    List LeaderboardEntry → List LeaderboardEntry
  | [] => [e]
  | f :: fs => if f.size < e.size then e :: f :: fs else f :: insertBySize e fs

/-- Stable sort, descending by size. -/
noncomputable def sortBySize (es : List LeaderboardEntry) :
    List LeaderboardEntry :=
  es.foldl (fun acc e => insertBySize e acc) []

/-- The rank-change pass of `Leaderboard::update`: `+1` when the new rank
is above the recorded one, `-1` when below, untouched otherwise or when the
id has no recorded rank. -/
def assignChanges (prev : PrevRanks) (es : List LeaderboardEntry) :
    List LeaderboardEntry :=
  es.enum.map (fun p =>
    match prev p.2.id with
    | some old =>
      if p.1 < old then { p.2 with rank_change := 1 }
      else if old < p.1 then { p.2 with rank_change := -1 }
      else p.2
    | none => p.2)

/-- `Leaderboard::update`: save previous ranks, rebuild entries from the
alive holes, sort by size descending (stable), assign rank changes. -/
noncomputable def Leaderboard.update (lb : Leaderboard) (holes : List Hole) :
    Leaderboard :=
  let prev := savePrevAux lb.previous_ranks lb.entries 0
  let base := (holes.filter (fun h => h.is_alive)).map mkEntry
  { entries := assignChanges prev (sortBySize base), previous_ranks := prev }

/-- Leaderboard scenario hole 1: radius 100, id 1. -/
noncomputable def lbHole1 : Hole := mkTestHole 1 0 0 100 (10000 * Real.pi)

/-- Leaderboard scenario hole 2: radius 90, id 2. -/
noncomputable def lbHole2 : Hole := mkTestHole 2 0 0 90 (8100 * Real.pi)

/-- Leaderboard scenario hole 3: radius 80, id 3. -/
noncomputable def lbHole3 : Hole := mkTestHole 3 0 0 80 (6400 * Real.pi)

/-- Leaderboard scenario hole 3 after growing to radius 150. -/
noncomputable def lbHole3b : Hole := mkTestHole 3 0 0 150 (22500 * Real.pi)

/-! ## World generation (`src/world/gen.rs`)

Constants: WORLD_WIDTH = WORLD_HEIGHT = 2000, STREET_WIDTH = 40,
BLOCK_SIZE = 200, AVENUE_INTERVAL = 3, so the block grid is 10 × 10 and
there are 11 horizontal and 11 vertical streets.

The external `rand::StdRng` is modelled as an abstract stream `s : ℕ → ℝ`
of draws together with a position counter in the generator state: seeding
is deterministic, so two runs from one seed read one shared stream, and
each `gen`/`gen_range` call consumes one draw in program order. Integer
ranges are modelled as `lo + ⌊u * (hi - lo)⌋` from one draw. The
process-wide object-id counter (`static mut NEXT_ID`) is the explicit
`nid` component of the generator state. -/

/-- `Street`. -/
structure Street where
  rect : Rect ℝ
  is_avenue : Bool

/-- `Block`. -/
structure Block where
  rect : Rect ℝ
  is_park : Bool

/-- `World`. -/
structure World where
  streets : List Street
  blocks : List Block
  objects : List (WorldObject ℝ)
  width : ℝ
  height : ℝ

/-- Generator state: objects and blocks accumulated so far, the rng stream
position `k`, and the next object id `nid`. -/
structure GenSt where
  objs : List (WorldObject ℝ)
  blocks : List Block
  k : ℕ
  nid : ℕ

/-- `rng.gen::<f32>()`: one draw. -/
noncomputable def rand (s : ℕ → ℝ) (st : GenSt) : ℝ × GenSt :=
  (s st.k, { st with k := st.k + 1 })

/-- `rng.gen_range(lo..hi)` on floats: one draw, affinely rescaled. -/
noncomputable def randRange (s : ℕ → ℝ) (lo hi : ℝ) (st : GenSt) : ℝ × GenSt :=
  (lo + s st.k * (hi - lo), { st with k := st.k + 1 })

/-- `rng.gen_range(lo..hi)` on integers: one draw, scaled and floored. -/
noncomputable def randNat (s : ℕ → ℝ) (lo hi : ℕ) (st : GenSt) : ℕ × GenSt :=
  (((lo : ℤ) + ⌊s st.k * ((hi : ℝ) - (lo : ℝ))⌋).toNat,
   { st with k := st.k + 1 })

/-- Allocate the next object id and append the object (`get_next_id` plus
`objects.push`). -/
def pushObj (f : ℕ → WorldObject ℝ) (st : GenSt) : GenSt :=
  { st with objs := st.objs ++ [f st.nid], nid := st.nid + 1 }

/-- `WorldObject::new`: draws size variation (±20%), a color variation
(±0.1, clamped per channel to [0,1]) and a rotation (`gen * TAU`), in that
order, then allocates the id. -/
noncomputable def newObject (s : ℕ → ℝ) (x y : ℝ) (t : ObjectType)
    (st : GenSt) : GenSt :=
  let r1 := randRange s 0.8 1.2 st
  let r2 := randRange s (-0.1) 0.1 r1.2
  let r3 := rand s r2.2
  let size := t.base_size * r1.1
  let bc := t.type_color
  pushObj (fun id =>
    { id := id, x := x, y := y, width := size, height := size, size := size,
      mass := size * size * 0.1, obj_type := t, state := .Normal,
      consumed := false,
      color := ⟨min (max (bc.r + r2.1) 0) 1, min (max (bc.g + r2.1) 0) 1,
                min (max (bc.b + r2.1) 0) 1, 1⟩,
      rotation := r3.1 * (2 * Real.pi) }) r3.2

/-- `WorldObject::new_building`: draws the gray level, then allocates the
id. -/
noncomputable def newBuilding (s : ℕ → ℝ) (x y width height : ℝ)
    (st : GenSt) : GenSt :=
  let r := randRange s 0.35 0.65 st
  pushObj (fun id =>
    { id := id, x := x, y := y, width := width, height := height,
      size := (width + height) / 2, mass := width * height * 0.5,
      obj_type := .Building, state := .Normal, consumed := false,
      color := ⟨r.1, r.1, r.1 + 0.05, 1⟩, rotation := 0 }) r.2

/-- Repeat a generation step `n` times. -/
noncomputable def iterSteps (f : GenSt → GenSt) : ℕ → GenSt → GenSt
  | 0, st => st
  | n + 1, st => iterSteps f n (f st)

/-- One tree of a park block: two position draws inside the block, then the
object draws. -/
noncomputable def treeStep (s : ℕ → ℝ) (x y w h : ℝ) (st : GenSt) : GenSt :=
  let r1 := rand s st
  let r2 := rand s r1.2
  newObject s (x + r1.1 * w) (y + r2.1 * h) .Tree r2.2

/-- One bench of a park block. -/
noncomputable def benchStep (s : ℕ → ℝ) (x y w h : ℝ) (st : GenSt) : GenSt :=
  let r1 := rand s st
  let r2 := rand s r1.2
  newObject s (x + r1.1 * w) (y + r2.1 * h) .Bench r2.2

/-- Building `i` of `count` on a city block: deterministic geometry
(padding 15), one gray draw inside `newBuilding`. -/
noncomputable def buildingStep (s : ℕ → ℝ) (x y w h : ℝ) (count i : ℕ)
    (st : GenSt) : GenSt :=
  let bw := w / (count : ℝ) - 15
  let bh := h - 15 * 2
  let ox := x + 15 / 2 + (i : ℝ) * (bw + 15)
  let oy := y + 15
  newBuilding s (ox + bw / 2) (oy + bh / 2) bw bh st

/-- One block of the block scan: roll the 15% park chance, record the
block, then populate with trees and benches (park) or 1–3 buildings
(city). -/
noncomputable def genBlock (s : ℕ → ℝ) (bx by_ : ℕ) (st : GenSt) : GenSt :=
  let x := (bx : ℝ) * 200 + 40 / 2
  let y := (by_ : ℝ) * 200 + 40 / 2
  let w : ℝ := 200 - 40
  let h : ℝ := 200 - 40
  let r := rand s st
  let is_park := decide (r.1 < 0.15)
  let st := { r.2 with blocks := r.2.blocks ++ [⟨⟨x, y, w, h⟩, is_park⟩] }
  if is_park then
    let rt := randNat s 5 12 st
    let st := iterSteps (treeStep s x y w h) rt.1 rt.2
    let rb := randNat s 2 5 st
    iterSteps (benchStep s x y w h) rb.1 rb.2
  else
    let rb := randNat s 1 4 st
    (List.range rb.1).foldl
      (fun st i => buildingStep s x y w h rb.1 i st) rb.2

/-- The block double loop (`by` outer, `bx` inner). -/
noncomputable def genBlocks (s : ℕ → ℝ) (st : GenSt) : GenSt :=
  (List.range 10).foldl (fun st by_ =>
    (List.range 10).foldl (fun st bx => genBlock s bx by_ st) st) st

/-- The 11 horizontal streets (every 3rd is a 1.5× wide avenue). -/
noncomputable def horizontalStreets : List Street :=
  (List.range 11).map (fun i =>
    let w : ℝ := if i % 3 = 0 then 40 * 1.5 else 40
    { rect := ⟨0, (i : ℝ) * 200 - w / 2, 2000, w⟩,
      is_avenue := decide (i % 3 = 0) })

/-- The 11 vertical streets. -/
noncomputable def verticalStreets : List Street :=
  (List.range 11).map (fun i =>
    let w : ℝ := if i % 3 = 0 then 40 * 1.5 else 40
    { rect := ⟨(i : ℝ) * 200 - w / 2, 0, w, 2000⟩,
      is_avenue := decide (i % 3 = 0) })

/-- All streets, horizontal then vertical. -/
noncomputable def genStreets : List Street :=
  horizontalStreets ++ verticalStreets

/-- Number of iterations of the lamppost `while` loop along a street of
length `len` (start at 40 from the edge, step 80). -/
noncomputable def lampCount (len : ℝ) : ℕ := (⌈(len - 40) / 80⌉).toNat

/-- One lamppost roll (70% chance) at a fixed position. -/
noncomputable def lampStep (s : ℕ → ℝ) (lx ly : ℝ) (st : GenSt) : GenSt :=
  let r := rand s st
  if r.1 < 0.7 then newObject s lx ly .Lamppost r.2 else r.2

/-- The lamppost loop of one street (horizontal when `w > h`). -/
noncomputable def genLamps (s : ℕ → ℝ) (street : Street) (st : GenSt) :
    GenSt :=
  if street.rect.h < street.rect.w then
    (List.range (lampCount street.rect.w)).foldl
      (fun st k =>
        lampStep s (street.rect.x + 40 / 2 + 80 * (k : ℝ))
          (street.rect.y + 5) st) st
  else
    (List.range (lampCount street.rect.h)).foldl
      (fun st k =>
        lampStep s (street.rect.x + 5)
          (street.rect.y + 40 / 2 + 80 * (k : ℝ)) st) st

/-- One car on an avenue: one position draw along the street. -/
noncomputable def carStep (s : ℕ → ℝ) (street : Street) (st : GenSt) : GenSt :=
  if street.rect.h < street.rect.w then
    let r := rand s st
    newObject s (street.rect.x + r.1 * street.rect.w)
      (street.rect.y + street.rect.h / 2) .Car r.2
  else
    let r := rand s st
    newObject s (street.rect.x + street.rect.w / 2)
      (street.rect.y + r.1 * street.rect.h) .Car r.2

/-- One pedestrian: two position draws (the source computes the same
formulas in both orientation branches). -/
noncomputable def personStep (s : ℕ → ℝ) (street : Street) (st : GenSt) :
    GenSt :=
  let r1 := rand s st
  let r2 := rand s r1.2
  newObject s (street.rect.x + r1.1 * street.rect.w)
    (street.rect.y + r2.1 * street.rect.h) .Person r2.2

/-- Street furniture for one street: lamp rolls, cars on avenues,
pedestrians. -/
noncomputable def genStreetObjects (s : ℕ → ℝ) (street : Street)
    (st : GenSt) : GenSt :=
  let st := genLamps s street st
  let st :=
    if street.is_avenue then
      let rc := randNat s 3 8 st
      iterSteps (carStep s street) rc.1 rc.2
    else st
  let rp := randNat s 2 6 st
  iterSteps (personStep s street) rp.1 rp.2

/-- One scattered hydrant/trash can: two position draws over the world and
a 50% type roll. -/
noncomputable def miscStep (s : ℕ → ℝ) (st : GenSt) : GenSt :=
  let r1 := rand s st
  let r2 := rand s r1.2
  let r3 := rand s r2.2
  newObject s (r1.1 * 2000) (r2.1 * 2000)
    (if r3.1 < 0.5 then ObjectType.Hydrant else ObjectType.TrashCan) r3.2

/-- The random part of `World::generate`, in program order: blocks with
their objects in block-scan order, then street furniture street by street,
then 50 misc props. -/
noncomputable def genPipeline (s : ℕ → ℝ) (st : GenSt) : GenSt :=
  iterSteps (miscStep s) 50
    (genStreets.foldl (fun st street => genStreetObjects s street st)
      (genBlocks s st))

/-- `World::generate`, with the seeded rng stream and the process-wide id
counter made explicit. Returns the world and the final id counter. -/
noncomputable def World.generateWith (s : ℕ → ℝ) (nid : ℕ) : World × ℕ :=
  let st := genPipeline s { objs := [], blocks := [], k := 0, nid := nid }
  ({ streets := genStreets, blocks := st.blocks, objects := st.objs,
     width := 2000, height := 2000 }, st.nid)

/-- Shift every allocated id (and the id counter) by `d`: relates two runs
of the generator whose global id counters differ by `d`. -/
def shiftSt (d : ℕ) (st : GenSt) : GenSt :=
  { objs := st.objs.map (fun o => { o with id := o.id + d }),
    blocks := st.blocks, k := st.k, nid := st.nid + d }

/-! ## Theorems -/

/-- C7: `can_consume_hole` is asymmetric: for all (nonnegative, as produced
by the program) radius pairs, if `can_consume_hole a b` holds then
`can_consume_hole b a` fails. -/
theorem can_consume_hole_asymmetric (a b : Hole) (ha : 0 ≤ a.radius)
    (hb : 0 ≤ b.radius) (hab : a.can_consume_hole b) :
    ¬ b.can_consume_hole a := by
  rintro ⟨-, -, -, hba⟩
  obtain ⟨-, -, -, hab'⟩ := hab
  nlinarith

/-- Witness for C7 at radii 100 and 70. -/
theorem can_consume_hole_asymmetric_witness :
    0 ≤ holeA.radius ∧ 0 ≤ holeB.radius ∧ holeA.can_consume_hole holeB ∧
      ¬ holeB.can_consume_hole holeA := by
  have h1 : (0:ℝ) ≤ holeA.radius := by norm_num [holeA, mkTestHole]
  have h2 : (0:ℝ) ≤ holeB.radius := by norm_num [holeB, mkTestHole]
  have h3 : holeA.can_consume_hole holeB := by
    refine ⟨rfl, rfl, ?_, ?_⟩ <;> norm_num [holeA, holeB, mkTestHole]
  exact ⟨h1, h2, h3, can_consume_hole_asymmetric holeA holeB h1 h2 h3⟩

/-- Length of the zero vector. -/
theorem Vec2.length_zero : Vec2.length ⟨0, 0⟩ = 0 := by
  simp [Vec2.length]

/-- Under the `set_velocity` invariant (velocity is zero or normalized), the
dash condition `0.01 < length` is equivalent to being nonzero. -/
theorem dash_condition_iff (v : Vec2) (hv : v = ⟨0, 0⟩ ∨ v.length = 1) :
    (0.01 < v.length ↔ v ≠ ⟨0, 0⟩) := by
  rcases hv with hv | hv
  · subst hv
    simp [Vec2.length_zero]
    norm_num
  · rw [hv]
    constructor
    · intro _ h0
      rw [h0, Vec2.length_zero] at hv
      norm_num at hv
    · intro _
      norm_num

/-- C8: `try_dash` succeeds (starting both timers) iff the cooldown has
expired and the velocity is non-zero (velocities are zero-or-normalized, as
`set_velocity` guarantees); a failure leaves the hole unchanged, and an
immediate second call after a success with a positive cooldown fails. -/
theorem try_dash_spec (h : Hole) (cd dur : ℝ)
    (hv : h.velocity = ⟨0, 0⟩ ∨ h.velocity.length = 1) :
    ((h.try_dash cd dur).1 = true ↔
        h.dash_cooldown ≤ 0 ∧ h.velocity ≠ ⟨0, 0⟩) ∧
    ((h.try_dash cd dur).1 = true →
      (h.try_dash cd dur).2 =
        { h with dash_cooldown := cd, dash_active := dur }) ∧
    ((h.try_dash cd dur).1 = false → (h.try_dash cd dur).2 = h) ∧
    (0 < cd → (h.try_dash cd dur).1 = true →
      (Hole.try_dash (h.try_dash cd dur).2 cd dur).1 = false) := by
  have hiff := dash_condition_iff h.velocity hv
  by_cases hc : h.dash_cooldown ≤ 0 ∧ 0.01 < h.velocity.length
  · have hres : h.try_dash cd dur =
        (true, { h with dash_cooldown := cd, dash_active := dur }) := by
      simp [Hole.try_dash, hc]
    rw [hres]
    refine ⟨⟨fun _ => ⟨hc.1, hiff.mp hc.2⟩, fun _ => rfl⟩, fun _ => rfl,
      fun hf => by simp at hf, fun hcd _ => ?_⟩
    simp only [Hole.try_dash]
    rw [if_neg]
    rintro ⟨hle, -⟩
    exact absurd hcd (not_lt.mpr hle)
  · have hres : h.try_dash cd dur = (false, h) := by
      simp only [Hole.try_dash, if_neg hc]
    rw [hres]
    refine ⟨⟨fun ht => by simp at ht, ?_⟩, fun ht => by simp at ht,
      fun _ => rfl, fun _ ht => by simp at ht⟩
    rintro ⟨h1, h2⟩
    exact absurd ⟨h1, hiff.mpr h2⟩ hc

/-- Witness for C8: the dash-ready hole succeeds. -/
theorem try_dash_spec_witness :
    (dashReadyHole.velocity = ⟨0, 0⟩ ∨ dashReadyHole.velocity.length = 1) ∧
      (dashReadyHole.try_dash 3 0.2).1 = true := by
  have hv : dashReadyHole.velocity.length = 1 := by
    simp [dashReadyHole, mkTestHole, Vec2.length]
  refine ⟨Or.inr hv, ?_⟩
  refine (try_dash_spec dashReadyHole 3 0.2 (Or.inr hv)).1.mpr ⟨?_, ?_⟩
  · norm_num [dashReadyHole, mkTestHole]
  · simp [dashReadyHole, mkTestHole]

/-- The timer phase leaves every field other than the three timers alone,
and decrements each timer exactly when it is positive. -/
theorem tickTimers_eq (h : Hole) (dt : ℝ) :
    h.tickTimers dt =
      { h with
        dash_cooldown :=
          if 0 < h.dash_cooldown then h.dash_cooldown - dt else h.dash_cooldown,
        dash_active :=
          if 0 < h.dash_active then h.dash_active - dt else h.dash_active,
        invincible :=
          if 0 < h.invincible then h.invincible - dt else h.invincible } := by
  simp only [Hole.tickTimers]
  split_ifs <;> simp_all

/-- C2 counterexample: a dead hole's dash cooldown does change under
`update`, contradicting the claim that only the respawn countdown advances. -/
theorem dead_update_changes_dash_cooldown :
    (deadHole.update 0.5 2000 2000 200).dash_cooldown ≠
      deadHole.dash_cooldown := by
  norm_num [Hole.update, tickTimers_eq, Hole.updateDead, deadHole, mkTestHole]

/-- C2 amended: while a hole's respawn countdown is positive (the dead,
waiting state), `update` leaves position, radius, area, score and velocity
unchanged and advances the respawn countdown, but the dash and invincibility
timers also count down when positive; on expiry the hole flips to alive with
exactly a 1-second invincibility grant. -/
theorem dead_hole_update_spec (h : Hole) (dt ww wh ms : ℝ)
    (hdead : h.is_alive = false) (hrt : 0 < h.respawn_timer) :
    (h.update dt ww wh ms).x = h.x ∧
    (h.update dt ww wh ms).y = h.y ∧
    (h.update dt ww wh ms).area = h.area ∧
    (h.update dt ww wh ms).radius = h.radius ∧
    (h.update dt ww wh ms).score = h.score ∧
    (h.update dt ww wh ms).velocity = h.velocity ∧
    (h.update dt ww wh ms).respawn_timer = h.respawn_timer - dt ∧
    (h.update dt ww wh ms).dash_cooldown =
      (if 0 < h.dash_cooldown then h.dash_cooldown - dt else h.dash_cooldown) ∧
    (h.update dt ww wh ms).dash_active =
      (if 0 < h.dash_active then h.dash_active - dt else h.dash_active) ∧
    (h.respawn_timer - dt ≤ 0 →
      (h.update dt ww wh ms).is_alive = true ∧
      (h.update dt ww wh ms).invincible = 1) ∧
    (0 < h.respawn_timer - dt →
      (h.update dt ww wh ms).is_alive = false ∧
      (h.update dt ww wh ms).invincible =
        (if 0 < h.invincible then h.invincible - dt else h.invincible)) := by
  have hcond : 0 < (h.tickTimers dt).respawn_timer := by
    rw [tickTimers_eq]; exact hrt
  have hupd : h.update dt ww wh ms = (h.tickTimers dt).updateDead dt := by
    unfold Hole.update
    rw [if_pos hcond]
  rw [hupd, Hole.updateDead, tickTimers_eq]
  by_cases hexp : h.respawn_timer - dt ≤ 0
  · rw [if_pos (by simpa using hexp)]
    refine ⟨rfl, rfl, rfl, rfl, rfl, rfl, rfl, rfl, rfl,
      fun _ => ⟨rfl, rfl⟩, fun hpos => absurd hexp (by linarith)⟩
  · rw [if_neg (by simpa using hexp)]
    exact ⟨rfl, rfl, rfl, rfl, rfl, rfl, rfl, rfl, rfl,
      fun hle => absurd hle hexp, fun _ => ⟨hdead, rfl⟩⟩

/-- Integer interval membership. -/
theorem mem_intRange {lo hi z : ℤ} : z ∈ intRange lo hi ↔ lo ≤ z ∧ z ≤ hi := by
  unfold intRange
  rw [List.mem_map]
  constructor
  · rintro ⟨k, hk, rfl⟩
    rw [List.mem_range] at hk
    omega
  · rintro ⟨h1, h2⟩
    refine ⟨(z - lo).toNat, ?_, ?_⟩
    · rw [List.mem_range]
      omega
    · omega

/-- The query loop visits exactly the cells between `lo` and `hi`. -/
theorem mem_coordsBetween {lo hi c : CellCoord} :
    c ∈ coordsBetween lo hi ↔ cellBetween lo hi c := by
  unfold coordsBetween cellBetween
  simp only [List.mem_flatMap, List.mem_map, mem_intRange]
  constructor
  · rintro ⟨cx, ⟨h1, h2⟩, cy, ⟨h3, h4⟩, rfl⟩
    exact ⟨h1, h2, h3, h4⟩
  · rintro ⟨h1, h2, h3, h4⟩
    exact ⟨c.x, ⟨h1, h2⟩, c.y, ⟨h3, h4⟩, rfl⟩

/-- Membership in the first-occurrence deduplication. -/
theorem mem_dedupFirst {n : ℕ} :
    ∀ (l seen : List ℕ), n ∈ dedupFirst seen l ↔ n ∉ seen ∧ n ∈ l := by
  intro l
  induction l with
  | nil => intro seen; simp [dedupFirst]
  | cons m rest ih =>
    intro seen
    unfold dedupFirst
    split_ifs with hm
    · rw [ih]
      simp only [List.mem_cons]
      constructor
      · rintro ⟨h1, h2⟩
        exact ⟨h1, Or.inr h2⟩
      · rintro ⟨h1, h2 | h2⟩
        · exact absurd (h2 ▸ hm) h1
        · exact ⟨h1, h2⟩
    · simp only [List.mem_cons, ih]
      by_cases hnm : n = m
      · subst hnm
        simp [hm]
      · simp [hnm]

/-- The deduplicated query result has no duplicates. -/
theorem nodup_dedupFirst : ∀ (l seen : List ℕ), (dedupFirst seen l).Nodup := by
  intro l
  induction l with
  | nil => intro seen; simp [dedupFirst]
  | cons m rest ih =>
    intro seen
    unfold dedupFirst
    split_ifs with hm
    · exact ih seen
    · rw [List.nodup_cons]
      refine ⟨?_, ih _⟩
      rw [mem_dedupFirst]
      rintro ⟨hns, -⟩
      exact hns (List.mem_cons_self m seen)

/-- Membership after inserting one object into its cell rectangle. -/
theorem mem_insertObject {cells : SpatialGrid} {idx : ℕ} {lo hi c : CellCoord}
    {m : ℕ} :
    m ∈ insertObject cells idx lo hi c ↔
      m ∈ cells c ∨ (m = idx ∧ cellBetween lo hi c) := by
  unfold insertObject
  split_ifs with hin <;> simp [hin]

/-- Membership in the cell map after folding the insert step over an
arbitrary list of (index, object) pairs. -/
theorem mem_buildAux {α : Type} [LinearOrderedField α] [FloorRing α] :
    ∀ (l : List (ℕ × WorldObject α)) (init : SpatialGrid) (n : ℕ)
      (c : CellCoord),
      n ∈ (l.foldl
        (fun cells p =>
          if p.2.consumed then cells
          else insertObject cells p.1 (objMinCell p.2) (objMaxCell p.2))
        init) c ↔
      n ∈ init c ∨ ∃ p ∈ l, p.1 = n ∧ p.2.consumed = false ∧
        cellBetween (objMinCell p.2) (objMaxCell p.2) c := by
  intro l
  induction l with
  | nil => intro init n c; simp
  | cons q rest ih =>
    intro init n c
    simp only [List.foldl_cons]
    by_cases hq : q.2.consumed
    · rw [if_pos hq, ih]
      constructor
      · rintro (h | ⟨p, hp, h⟩)
        · exact Or.inl h
        · exact Or.inr ⟨p, List.mem_cons_of_mem q hp, h⟩
      · rintro (h | ⟨p, hp, h1, h2, h3⟩)
        · exact Or.inl h
        · rcases List.mem_cons.mp hp with rfl | hp
          · rw [hq] at h2; cases h2
          · exact Or.inr ⟨p, hp, h1, h2, h3⟩
    · rw [if_neg hq, ih, mem_insertObject]
      constructor
      · rintro ((h | ⟨rfl, hbet⟩) | ⟨p, hp, h⟩)
        · exact Or.inl h
        · exact Or.inr ⟨q, List.mem_cons_self q rest, rfl,
            Bool.not_eq_true _ ▸ (by simpa using hq), hbet⟩
        · exact Or.inr ⟨p, List.mem_cons_of_mem q hp, h⟩
      · rintro (h | ⟨p, hp, h1, h2, h3⟩)
        · exact Or.inl (Or.inl h)
        · rcases List.mem_cons.mp hp with rfl | hp
          · exact Or.inl (Or.inr ⟨h1.symm, h3⟩)
          · exact Or.inr ⟨p, hp, h1, h2, h3⟩

/-- Characterization of `SpatialGrid::build`: a cell holds exactly the
indices of the non-consumed objects whose bounding box reaches it. -/
theorem mem_build {α : Type} [LinearOrderedField α] [FloorRing α]
    (objects : List (WorldObject α)) (n : ℕ) (c : CellCoord) :
    n ∈ SpatialGrid.build objects c ↔
      ∃ o, objects[n]? = some o ∧ o.consumed = false ∧
        cellBetween (objMinCell o) (objMaxCell o) c := by
  unfold SpatialGrid.build
  rw [mem_buildAux]
  constructor
  · rintro (h | ⟨⟨i, o⟩, hmem, rfl, hc, hb⟩)
    · simp at h
    · exact ⟨o, List.mem_enum_iff_getElem?.mp hmem, hc, hb⟩
  · rintro ⟨o, h1, h2, h3⟩
    exact Or.inr ⟨(n, o), List.mem_enum_iff_getElem?.mpr h1, rfl, h2, h3⟩

/-- Characterization of the shared query loop. -/
theorem mem_queryCells {cells : SpatialGrid} {lo hi : CellCoord} {n : ℕ} :
    n ∈ SpatialGrid.queryCells cells lo hi ↔
      ∃ c, cellBetween lo hi c ∧ n ∈ cells c := by
  unfold SpatialGrid.queryCells
  rw [mem_dedupFirst]
  simp only [List.mem_flatMap, mem_coordsBetween, List.not_mem_nil,
    not_false_eq_true, true_and]

/-- C3: after `build(objects)`, `query_rect(R)` is duplicate-free and holds
exactly the indices of non-consumed objects whose bounding box intersects a
grid cell overlapping R (both rounded to cells by flooring, as the code
does). -/
theorem query_rect_build_spec {α : Type} [LinearOrderedField α] [FloorRing α]
    (objects : List (WorldObject α)) (r : Rect α) :
    (SpatialGrid.query_rect (SpatialGrid.build objects) r).Nodup ∧
    ∀ n, n ∈ SpatialGrid.query_rect (SpatialGrid.build objects) r ↔
      ∃ o, objects[n]? = some o ∧ o.consumed = false ∧
        ∃ c, cellBetween (objMinCell o) (objMaxCell o) c ∧
          cellBetween (CellCoord.from_position r.x r.y)
            (CellCoord.from_position (r.x + r.w) (r.y + r.h)) c := by
  constructor
  · exact nodup_dedupFirst _ _
  · intro n
    unfold SpatialGrid.query_rect
    rw [mem_queryCells]
    constructor
    · rintro ⟨c, hc, hn⟩
      obtain ⟨o, h1, h2, h3⟩ := (mem_build objects n c).mp hn
      exact ⟨o, h1, h2, c, h3, hc⟩
    · rintro ⟨o, h1, h2, c, h3, hc⟩
      exact ⟨c, hc, (mem_build objects n c).mpr ⟨o, h1, h2, h3⟩⟩

/-- For a two-hole list whose first hole overlaps and can consume the
second, the collection phase finds exactly the pair (0, 1). -/
theorem collectEliminations_pair (a b : Hole) (ha : a.is_alive = true)
    (hb : b.is_alive = true) (hov : a.overlaps_hole b)
    (hcan : a.can_consume_hole b) :
    collectEliminations [a, b] = [(0, 1)] := by
  have hpair : pairElim [a, b] 0 1 = [(0, 1)] := by
    unfold pairElim
    simp only [List.getElem?_cons_zero, List.getElem?_cons_succ]
    rw [if_neg (by simp [ha, hb]), if_neg (not_not_intro hov), if_pos hcan]
  unfold collectEliminations
  have hlen : ([a, b] : List Hole).length = 2 := rfl
  rw [hlen]
  have hr : List.range 2 = [0, 1] := rfl
  rw [hr]
  simp only [List.flatMap_cons, List.flatMap_nil]
  have hr1 : List.range' (0 + 1) (2 - (0 + 1)) = [1] := rfl
  have hr2 : List.range' (1 + 1) (2 - (1 + 1)) = ([] : List ℕ) := rfl
  rw [hr1, hr2]
  simp [hpair]

/-- The distance between the scenario holes A and B is exactly 50. -/
theorem holeA_dist_holeB : holeA.dist_to holeB = 50 := by
  unfold Hole.dist_to
  norm_num [holeA, holeB, mkTestHole]
  rw [show (2500 : ℝ) = 50 ^ 2 by norm_num]
  exact Real.sqrt_sq (by norm_num)

/-- C5: with A (radius 100) and B (radius 70) 50 units apart, combat makes
A the winner: A's area grows by half of B's area, A's eliminations go up by
one, and B is respawn-queued when `allow_respawn` and deactivated
otherwise. -/
theorem process_hole_combat_scenario (allow : Bool) (rt : ℝ) :
    ((process_hole_combat [holeA, holeB] 0 [] allow rt).1[0]?.map Hole.area =
      some (holeA.area + holeB.area * 0.5)) ∧
    ((process_hole_combat [holeA, holeB] 0 [] allow rt).1[0]?.map
        Hole.eliminations = some (holeA.eliminations + 1)) ∧
    ((process_hole_combat [holeA, holeB] 0 [] true rt).1[1]? =
      some (holeB.die rt)) ∧
    ((process_hole_combat [holeA, holeB] 0 [] false rt).1[1]? =
      some { holeB with is_alive := false }) := by
  have hov : holeA.overlaps_hole holeB := by
    unfold Hole.overlaps_hole
    rw [holeA_dist_holeB]
    norm_num [holeA, holeB, mkTestHole]
  have hcan : holeA.can_consume_hole holeB := by
    refine ⟨rfl, rfl, ?_, ?_⟩ <;> norm_num [holeA, holeB, mkTestHole]
  have hcoll := collectEliminations_pair holeA holeB rfl rfl hov hcan
  have hrun : ∀ al : Bool, process_hole_combat [holeA, holeB] 0 [] al rt =
      applyElimination al rt 0 ([holeA, holeB], [], none) (0, 1) := by
    intro al
    unfold process_hole_combat
    rw [hcoll]
    rfl
  refine ⟨?_, ?_, ?_, ?_⟩ <;> cases allow <;>
    simp [hrun, applyElimination, List.set]

/-- C1 (code bug): in hole-vs-hole combat the winner's radius is recomputed
without the `MAX_RADIUS` cap: consuming B (radius 150) as A (radius 190)
yields radius `√47350 > 200`, violating the claimed invariant
`radius = min (√(area/π)) MAX_RADIUS`. -/
theorem combat_exceeds_max_radius :
    ∃ hw, (process_hole_combat [holeBigA, holeBigB] 0 [] false 0).1[0]? =
        some hw ∧
      hw.radius = Real.sqrt 47350 ∧ Hole.MAX_RADIUS < hw.radius ∧
      hw.radius ≠ min (Real.sqrt (hw.area / Real.pi)) Hole.MAX_RADIUS := by
  have hov : holeBigA.overlaps_hole holeBigB := by
    unfold Hole.overlaps_hole Hole.dist_to
    norm_num [holeBigA, holeBigB, mkTestHole, Real.sqrt_zero]
  have hcan : holeBigA.can_consume_hole holeBigB := by
    refine ⟨rfl, rfl, ?_, ?_⟩ <;> norm_num [holeBigA, holeBigB, mkTestHole]
  have hcoll := collectEliminations_pair holeBigA holeBigB rfl rfl hov hcan
  have hrun : process_hole_combat [holeBigA, holeBigB] 0 [] false 0 =
      applyElimination false 0 0 ([holeBigA, holeBigB], [], none) (0, 1) := by
    unfold process_hole_combat
    rw [hcoll]
    rfl
  have harea : (holeBigA.area + holeBigB.area * 0.5) / Real.pi = 47350 := by
    rw [div_eq_iff Real.pi_ne_zero]
    norm_num [holeBigA, holeBigB, mkTestHole]
    ring
  have hlt : (200 : ℝ) < Real.sqrt 47350 := by
    rw [show (200 : ℝ) = √(200 ^ 2) from (Real.sqrt_sq (by norm_num)).symm]
    exact Real.sqrt_lt_sqrt (by positivity) (by norm_num)
  refine ⟨{ holeBigA with
      area := holeBigA.area + holeBigB.area * 0.5,
      radius := Real.sqrt ((holeBigA.area + holeBigB.area * 0.5) / Real.pi),
      eliminations := holeBigA.eliminations + 1 }, ?_, ?_, ?_, ?_⟩
  · rw [hrun]
    simp [applyElimination, List.set]
  · show Real.sqrt ((holeBigA.area + holeBigB.area * 0.5) / Real.pi) =
      Real.sqrt 47350
    rw [harea]
  · show Hole.MAX_RADIUS <
      Real.sqrt ((holeBigA.area + holeBigB.area * 0.5) / Real.pi)
    rw [harea, Hole.MAX_RADIUS]
    exact hlt
  · show Real.sqrt ((holeBigA.area + holeBigB.area * 0.5) / Real.pi) ≠
      min (Real.sqrt ((holeBigA.area + holeBigB.area * 0.5) / Real.pi))
        Hole.MAX_RADIUS
    rw [harea, Hole.MAX_RADIUS]
    intro heq
    have hmin : min (Real.sqrt 47350) (200 : ℝ) ≤ 200 := min_le_right _ _
    rw [← heq] at hmin
    linarith

/-- Witness for C2's amended theorem at the concrete dead hole. -/
theorem dead_hole_update_spec_witness :
    deadHole.is_alive = false ∧ 0 < deadHole.respawn_timer ∧
      (deadHole.update 0.5 2000 2000 200).respawn_timer =
        deadHole.respawn_timer - 0.5 := by
  refine ⟨rfl, by norm_num [deadHole, mkTestHole], ?_⟩
  exact (dead_hole_update_spec deadHole 0.5 2000 2000 200 rfl
    (by norm_num [deadHole, mkTestHole])).2.2.2.2.2.2.1

/-- `start_falling` does not touch the `consumed` flag. -/
theorem start_falling_consumed (o : WorldObject ℝ) (hx hy : ℝ) :
    (o.start_falling hx hy).consumed = o.consumed := rfl

/-- `start_falling` is idempotent for a fixed target. -/
theorem start_falling_idem (o : WorldObject ℝ) (hx hy : ℝ) :
    (o.start_falling hx hy).start_falling hx hy = o.start_falling hx hy := rfl

/-- One swallow step preserves the object-list length. -/
theorem swallowStep_length (hole : Hole)
    (st : List (WorldObject ℝ) × List ℕ × List VfxType) (j : ℕ) :
    (swallowStep hole st j).1.length = st.1.length := by
  unfold swallowStep
  cases hj : st.1[j]? with
  | none => rfl
  | some obj =>
    simp only []
    split_ifs <;> simp [List.length_set]

/-- One swallow step leaves every index other than its own unchanged. -/
theorem swallowStep_ne (hole : Hole)
    (st : List (WorldObject ℝ) × List ℕ × List VfxType) (j i : ℕ)
    (hij : i ≠ j) : (swallowStep hole st j).1[i]? = st.1[i]? := by
  unfold swallowStep
  cases hj : st.1[j]? with
  | none => rfl
  | some obj =>
    simp only []
    split_ifs <;>
      simp [List.getElem?_set_ne (fun h => hij h.symm)]

/-- Tracing one swallow step backward: each object of the new list is
either the old object at that index, or the old object (not consumed, not
falling) sent falling toward the hole. -/
theorem swallowStep_cases (hole : Hole)
    (st : List (WorldObject ℝ) × List ℕ × List VfxType) (j i : ℕ)
    (o' : WorldObject ℝ) (h : (swallowStep hole st j).1[i]? = some o') :
    ∃ o, st.1[i]? = some o ∧
      (o' = o ∨ (o.consumed = false ∧ o.state.isFalling = false ∧
        o' = o.start_falling hole.x hole.y)) := by
  by_cases hij : i = j
  · subst hij
    unfold swallowStep at h
    split at h
    · exact ⟨o', h, Or.inl rfl⟩
    · next obj hj =>
      split_ifs at h with h1 h2
      · exact ⟨o', h, Or.inl rfl⟩
      · have hlen : i < st.1.length := (List.getElem?_eq_some_iff.mp hj).1
        simp only [List.getElem?_set_self hlen] at h
        push_neg at h1
        refine ⟨obj, hj, Or.inr ⟨?_, ?_, (Option.some.inj h).symm⟩⟩
        · exact Bool.not_eq_true _ ▸ h1.1
        · exact Bool.not_eq_true _ ▸ h1.2
      · exact ⟨o', h, Or.inl rfl⟩
  · rw [swallowStep_ne hole st j i hij] at h
    exact ⟨o', h, Or.inl rfl⟩

/-- Tracing the whole swallow loop backward. -/
theorem swallowLoop_cases (hole : Hole) (idxs : List ℕ) :
    ∀ (st : List (WorldObject ℝ) × List ℕ × List VfxType) (i : ℕ)
      (o' : WorldObject ℝ),
      (idxs.foldl (swallowStep hole) st).1[i]? = some o' →
      ∃ o, st.1[i]? = some o ∧
        (o' = o ∨ (o.consumed = false ∧
          o' = o.start_falling hole.x hole.y)) := by
  induction idxs with
  | nil => exact fun st i o' h => ⟨o', h, Or.inl rfl⟩
  | cons j rest ih =>
    intro st i o' h
    rw [List.foldl_cons] at h
    obtain ⟨o₁, ho₁, hrel₁⟩ := ih (swallowStep hole st j) i o' h
    obtain ⟨o, ho, hrel₀⟩ := swallowStep_cases hole st j i o₁ ho₁
    refine ⟨o, ho, ?_⟩
    rcases hrel₀ with rfl | ⟨hc, -, rfl⟩
    · exact hrel₁
    · rcases hrel₁ with rfl | ⟨-, rfl⟩
      · exact Or.inr ⟨hc, rfl⟩
      · exact Or.inr ⟨hc, start_falling_idem o hole.x hole.y⟩

/-- The swallow loop preserves the object-list length. -/
theorem swallowLoop_length (hole : Hole) (idxs : List ℕ) :
    ∀ (st : List (WorldObject ℝ) × List ℕ × List VfxType),
      (idxs.foldl (swallowStep hole) st).1.length = st.1.length := by
  induction idxs with
  | nil => exact fun _ => rfl
  | cons j rest ih =>
    intro st
    rw [List.foldl_cons, ih, swallowStep_length]

/-- The swallow loop never touches a consumed object. -/
theorem swallowLoop_preserves_consumed (hole : Hole) (idxs : List ℕ) :
    ∀ (st : List (WorldObject ℝ) × List ℕ × List VfxType) (i : ℕ)
      (o : WorldObject ℝ),
      st.1[i]? = some o → o.consumed = true →
      (idxs.foldl (swallowStep hole) st).1[i]? = some o := by
  induction idxs with
  | nil => exact fun _ _ _ h _ => h
  | cons j rest ih =>
    intro st i o ho hc
    rw [List.foldl_cons]
    refine ih _ i o ?_ hc
    by_cases hij : i = j
    · subst hij
      unfold swallowStep
      rw [ho]
      simp only []
      rw [if_pos (Or.inl hc)]
      exact ho
    · rw [swallowStep_ne hole st j i hij]
      exact ho

/-- The swallow loop never touches a falling object. -/
theorem swallowLoop_preserves_falling (hole : Hole) (idxs : List ℕ) :
    ∀ (st : List (WorldObject ℝ) × List ℕ × List VfxType) (i : ℕ)
      (o : WorldObject ℝ),
      st.1[i]? = some o → o.state.isFalling = true →
      (idxs.foldl (swallowStep hole) st).1[i]? = some o := by
  induction idxs with
  | nil => exact fun _ _ _ h _ => h
  | cons j rest ih =>
    intro st i o ho hf
    rw [List.foldl_cons]
    refine ih _ i o ?_ hf
    by_cases hij : i = j
    · subst hij
      unfold swallowStep
      rw [ho]
      simp only []
      rw [if_pos (Or.inr hf)]
      exact ho
    · rw [swallowStep_ne hole st j i hij]
      exact ho

/-- A capturable Normal object whose index the loop visits ends up falling
toward the hole's position. -/
theorem swallowLoop_captures (hole : Hole) (idxs : List ℕ) :
    ∀ (st : List (WorldObject ℝ) × List ℕ × List VfxType) (i : ℕ)
      (o : WorldObject ℝ),
      st.1[i]? = some o → i ∈ idxs → o.consumed = false →
      o.state = ObjectState.Normal →
      hole.can_capture_at o.x o.y o.size →
      (idxs.foldl (swallowStep hole) st).1[i]? =
        some (o.start_falling hole.x hole.y) := by
  induction idxs with
  | nil => intro _ _ _ _ hmem; cases hmem
  | cons j rest ih =>
    intro st i o ho hmem hc hn hcap
    rw [List.foldl_cons]
    by_cases hij : i = j
    · subst hij
      have hstep : (swallowStep hole st i).1[i]? =
          some (o.start_falling hole.x hole.y) := by
        unfold swallowStep
        rw [ho]
        simp only []
        rw [if_neg (by simp [hc, hn, ObjectState.isFalling]),
          if_pos hcap]
        exact List.getElem?_set_self (List.getElem?_eq_some_iff.mp ho).1
      exact swallowLoop_preserves_falling hole rest _ i _ hstep rfl
    · rcases List.mem_cons.mp hmem with rfl | hmem'
      · exact absurd rfl hij
      · refine ih _ i o ?_ hmem' hc hn hcap
        rw [swallowStep_ne hole st j i hij]
        exact ho

/-- `process_swallow` never mutates the hole (in particular its area and
score are unchanged by a capture). -/
theorem process_swallow_hole (h : Hole) (os : List (WorldObject ℝ))
    (sp : SpatialGrid) (v : List VfxType) :
    (process_swallow h os sp v).1 = h := by
  unfold process_swallow
  split_ifs <;> rfl

/-- `process_swallow` never touches a consumed object. -/
theorem process_swallow_consumed (h : Hole) (os : List (WorldObject ℝ))
    (sp : SpatialGrid) (v : List VfxType) (i : ℕ) (o : WorldObject ℝ)
    (ho : os[i]? = some o) (hc : o.consumed = true) :
    (process_swallow h os sp v).2.1[i]? = some o := by
  unfold process_swallow
  split_ifs with hdead
  · exact ho
  · exact swallowLoop_preserves_consumed h _ (os, [], v) i o ho hc

/-- On a live hole, a Normal non-consumed object in the query result that
fits the capture test is transitioned to Falling with the hole's position
as target. -/
theorem process_swallow_captures (h : Hole) (os : List (WorldObject ℝ))
    (sp : SpatialGrid) (v : List VfxType) (i : ℕ) (o : WorldObject ℝ)
    (halive : h.is_alive = true) (ho : os[i]? = some o)
    (hmem : i ∈ sp.query_radius h.x h.y (h.radius * 2))
    (hc : o.consumed = false) (hn : o.state = ObjectState.Normal)
    (hcap : h.can_capture_at o.x o.y o.size) :
    (process_swallow h os sp v).2.1[i]? = some (o.start_falling h.x h.y) := by
  unfold process_swallow
  rw [if_neg (by simp [halive])]
  exact swallowLoop_captures h _ (os, [], v) i o ho hmem hc hn hcap

/-- Object lists evolve through `process_swallow` by the backward cases of
the swallow loop. -/
theorem process_swallow_cases (h : Hole) (os : List (WorldObject ℝ))
    (sp : SpatialGrid) (v : List VfxType) (i : ℕ) (o' : WorldObject ℝ)
    (hres : (process_swallow h os sp v).2.1[i]? = some o') :
    ∃ o, os[i]? = some o ∧
      (o' = o ∨ (o.consumed = false ∧ o' = o.start_falling h.x h.y)) := by
  unfold process_swallow at hres
  split_ifs at hres with hdead
  · exact ⟨o', hres, Or.inl rfl⟩
  · exact swallowLoop_cases h _ (os, [], v) i o' hres

/-- `process_swallow` preserves the object-list length. -/
theorem process_swallow_length (h : Hole) (os : List (WorldObject ℝ))
    (sp : SpatialGrid) (v : List VfxType) :
    (process_swallow h os sp v).2.1.length = os.length := by
  unfold process_swallow
  split_ifs with hdead
  · rfl
  · exact swallowLoop_length h _ (os, [], v)

/-- `Hole::grow` adds exactly `mass * growth_multiplier` to the area. -/
theorem grow_area (h : Hole) (m g : ℝ) : (h.grow m g).area = h.area + m * g :=
  rfl

/-- `Hole::grow` increments the score by one. -/
theorem grow_score (h : Hole) (m g : ℝ) : (h.grow m g).score = h.score + 1 :=
  rfl

/-- The object component of the falling pass is a pointwise map. -/
theorem fallLoop_objects (dt : ℝ) :
    ∀ (os : List (WorldObject ℝ)) (st : Hole × List (WorldObject ℝ)),
      (os.foldl (fallStep dt) st).2 = st.2 ++ os.map (fallResult dt) := by
  intro os
  induction os with
  | nil => intro st; simp
  | cons o rest ih =>
    intro st
    rw [List.foldl_cons, ih]
    simp only [List.map_cons]
    unfold fallStep fallResult
    split_ifs with h1 h2 <;> simp [h1]

/-- The hole's area and score after the falling pass: one `grow` per
completing object. -/
theorem fallLoop_hole (dt : ℝ) :
    ∀ (os : List (WorldObject ℝ)) (st : Hole × List (WorldObject ℝ)),
      (os.foldl (fallStep dt) st).1.area =
        st.1.area +
          ((os.filter (completes dt)).map WorldObject.mass).sum *
            GROWTH_MULTIPLIER ∧
      (os.foldl (fallStep dt) st).1.score =
        st.1.score + ((os.filter (completes dt)).length : ℤ) := by
  intro os
  induction os with
  | nil => intro st; simp
  | cons o rest ih =>
    intro st
    rw [List.foldl_cons, List.filter_cons]
    by_cases hcomp : completes dt o = true
    · have hf : o.state.isFalling = true := by
        unfold completes at hcomp
        exact (Bool.and_eq_true _ _ ▸ hcomp).1
      have hd : (o.update_falling dt).2 = true := by
        unfold completes at hcomp
        exact (Bool.and_eq_true _ _ ▸ hcomp).2
      have hstep : fallStep dt st o =
          (st.1.grow o.mass GROWTH_MULTIPLIER, st.2 ++ [(o.update_falling dt).1]) := by
        unfold fallStep
        rw [if_pos hf, if_pos hd]
      rw [hstep, if_pos hcomp]
      obtain ⟨iha, ihs⟩ := ih (st.1.grow o.mass GROWTH_MULTIPLIER,
        st.2 ++ [(o.update_falling dt).1])
      constructor
      · rw [iha, grow_area]
        simp [List.sum_cons]
        ring
      · rw [ihs, grow_score]
        simp [List.length_cons]
        ring
    · have hstep : (fallStep dt st o).1 = st.1 := by
        unfold fallStep
        unfold completes at hcomp
        by_cases hf : o.state.isFalling = true
        · rw [if_pos hf, if_neg]
          simp [hf] at hcomp
          simp [hcomp]
        · rw [if_neg hf]
      rw [if_neg hcomp]
      obtain ⟨iha, ihs⟩ := ih (fallStep dt st o)
      rw [iha, ihs, hstep]
      exact ⟨rfl, rfl⟩

/-- The objects after `update_falling_objects`. -/
theorem update_falling_objects_objects (h : Hole) (os : List (WorldObject ℝ))
    (dt : ℝ) :
    (update_falling_objects h os dt).2 = os.map (fallResult dt) := by
  unfold update_falling_objects
  rw [fallLoop_objects]
  rfl

/-- The hole after `update_falling_objects`. -/
theorem update_falling_objects_hole (h : Hole) (os : List (WorldObject ℝ))
    (dt : ℝ) :
    (update_falling_objects h os dt).1.area =
      h.area + ((os.filter (completes dt)).map WorldObject.mass).sum *
        GROWTH_MULTIPLIER ∧
    (update_falling_objects h os dt).1.score =
      h.score + ((os.filter (completes dt)).length : ℤ) := by
  unfold update_falling_objects
  exact fallLoop_hole dt os (h, [])

/-- C6: swallowing is two-phase. `process_swallow` leaves the hole (hence
its area and score) unchanged and only transitions a capturable Normal
object to Falling with the hole's position as target; the hole's area and
score grow only in `update_falling_objects` — by `mass * 0.15` and one
score point per object whose progress reaches 1, which then flips to
Consumed, while an unfinished object just advances its progress. -/
theorem two_phase_swallow_spec :
    (∀ (h : Hole) (os : List (WorldObject ℝ)) (sp : SpatialGrid)
       (v : List VfxType), (process_swallow h os sp v).1 = h) ∧
    (∀ (h : Hole) (os : List (WorldObject ℝ)) (sp : SpatialGrid)
       (v : List VfxType) (i : ℕ) (o : WorldObject ℝ),
       h.is_alive = true → os[i]? = some o →
       i ∈ sp.query_radius h.x h.y (h.radius * 2) → o.consumed = false →
       o.state = ObjectState.Normal → h.can_capture_at o.x o.y o.size →
       (process_swallow h os sp v).2.1[i]? =
         some { o with state := ObjectState.Falling 0 h.x h.y 0 }) ∧
    (∀ (h : Hole) (os : List (WorldObject ℝ)) (dt : ℝ),
       (update_falling_objects h os dt).1.area =
         h.area + ((os.filter (completes dt)).map WorldObject.mass).sum *
           GROWTH_MULTIPLIER ∧
       (update_falling_objects h os dt).1.score =
         h.score + ((os.filter (completes dt)).length : ℤ)) ∧
    (∀ (h : Hole) (os : List (WorldObject ℝ)) (dt : ℝ) (i : ℕ)
       (o : WorldObject ℝ) (p tx ty rot : ℝ),
       os[i]? = some o → o.state = ObjectState.Falling p tx ty rot →
       ((1 ≤ p + dt * 3 →
          ∃ o', (update_falling_objects h os dt).2[i]? = some o' ∧
            o'.state = ObjectState.Consumed ∧ o'.consumed = true ∧
            o'.mass = o.mass) ∧
        (p + dt * 3 < 1 →
          ∃ o', (update_falling_objects h os dt).2[i]? = some o' ∧
            o'.state =
              ObjectState.Falling (p + dt * 3) tx ty (rot + dt * 15) ∧
            o'.consumed = o.consumed))) := by
  refine ⟨process_swallow_hole, ?_, update_falling_objects_hole, ?_⟩
  · intro h os sp v i o halive ho hmem hc hn hcap
    exact process_swallow_captures h os sp v i o halive ho hmem hc hn hcap
  · intro h os dt i o p tx ty rot ho hstate
    rw [update_falling_objects_objects, List.getElem?_map, ho]
    have hres : fallResult dt o = (o.update_falling dt).1 := by
      unfold fallResult
      rw [if_pos (by rw [hstate]; rfl)]
    rw [Option.map_some', hres]
    simp only [WorldObject.update_falling, hstate]
    constructor
    · intro h1
      rw [if_pos h1]
      exact ⟨_, rfl, rfl, rfl, rfl⟩
    · intro h2
      rw [if_neg (not_le.mpr h2)]
      exact ⟨_, rfl, rfl, rfl⟩

/-- Witness for C6 at a radius-25 hole over one capturable object. -/
theorem two_phase_swallow_spec_witness :
    testHole.is_alive = true ∧
    testHole.can_capture_at testObjNormal.x testObjNormal.y testObjNormal.size ∧
    (0 : ℕ) ∈ SpatialGrid.query_radius testCells testHole.x testHole.y
      (testHole.radius * 2) ∧
    (process_swallow testHole [testObjNormal] testCells []).2.1[0]? =
      some { testObjNormal with
             state := ObjectState.Falling 0 testHole.x testHole.y 0 } := by
  have hcap : testHole.can_capture_at testObjNormal.x testObjNormal.y
      testObjNormal.size := by
    constructor
    · norm_num [testHole, testObjNormal, mkTestHole]
    · norm_num [testHole, testObjNormal, mkTestHole, Real.sqrt_zero]
  have hmem : (0 : ℕ) ∈ SpatialGrid.query_radius testCells testHole.x
      testHole.y (testHole.radius * 2) := by
    unfold SpatialGrid.query_radius
    rw [mem_queryCells]
    refine ⟨⟨0, 0⟩, ?_, by simp [testCells]⟩
    unfold cellBetween CellCoord.from_position
    norm_num [testHole, mkTestHole]
  exact ⟨rfl, hcap, hmem,
    two_phase_swallow_spec.2.1 testHole [testObjNormal] testCells [] 0
      testObjNormal rfl rfl hmem rfl rfl hcap⟩

/-- One resolver step preserves length, never touches consumed objects,
preserves the consumed-implies-Consumed invariant, and never moves an
object back to Normal. -/
theorem resolver_step_props (op : ResolverOp) (os : List (WorldObject ℝ))
    (hinv : ∀ o ∈ os, InvO o) :
    (applyResolverOp os op).length = os.length ∧
    (∀ (i : ℕ) (o : WorldObject ℝ), os[i]? = some o → o.consumed = true →
      (applyResolverOp os op)[i]? = some o) ∧
    (∀ (i : ℕ) (o o' : WorldObject ℝ), os[i]? = some o →
      (applyResolverOp os op)[i]? = some o' →
      InvO o' ∧
        (o.state ≠ ObjectState.Normal → o'.state ≠ ObjectState.Normal)) := by
  cases op with
  | swallow h sp v =>
    refine ⟨process_swallow_length h os sp v,
      fun i o ho hc => process_swallow_consumed h os sp v i o ho hc, ?_⟩
    intro i o o' ho hres
    obtain ⟨o₀, ho₀, hrel⟩ := process_swallow_cases h os sp v i o' hres
    have heq : o₀ = o := by rw [ho] at ho₀; exact (Option.some.inj ho₀).symm
    subst heq
    rcases hrel with rfl | ⟨hc, rfl⟩
    · exact ⟨hinv o' (List.mem_iff_getElem?.mpr ⟨i, ho⟩), fun hn => hn⟩
    · constructor
      · intro hc'
        rw [start_falling_consumed, hc] at hc'
        simp at hc'
      · intro _ heq
        exact ObjectState.noConfusion heq
  | fall h dt =>
    have hobj := update_falling_objects_objects h os dt
    refine ⟨?_, ?_, ?_⟩
    · show (update_falling_objects h os dt).2.length = _
      rw [hobj, List.length_map]
    · intro i o ho hc
      show (update_falling_objects h os dt).2[i]? = some o
      rw [hobj, List.getElem?_map, ho, Option.map_some']
      have hcons : o.state = ObjectState.Consumed :=
        hinv o (List.mem_iff_getElem?.mpr ⟨i, ho⟩) hc
      unfold fallResult
      rw [if_neg]
      rw [hcons]
      simp [ObjectState.isFalling]
    · intro i o o' ho hres
      have hmem : o ∈ os := List.mem_iff_getElem?.mpr ⟨i, ho⟩
      have hres' : (update_falling_objects h os dt).2[i]? = some o' := hres
      rw [hobj, List.getElem?_map, ho, Option.map_some'] at hres'
      have ho' : o' = fallResult dt o := (Option.some.inj hres').symm
      subst ho'
      unfold fallResult
      by_cases hf : o.state.isFalling = true
      · rw [if_pos hf]
        cases hstate : o.state with
        | Normal => rw [hstate] at hf; simp [ObjectState.isFalling] at hf
        | Consumed => rw [hstate] at hf; simp [ObjectState.isFalling] at hf
        | Falling p tx ty rot =>
          simp only [WorldObject.update_falling, hstate]
          split_ifs with hdone
          · exact ⟨fun _ => rfl, fun _ heq => ObjectState.noConfusion heq⟩
          · constructor
            · intro hc'
              have := hinv o hmem hc'
              rw [hstate] at this
              exact ObjectState.noConfusion this
            · intro _ heq
              exact ObjectState.noConfusion heq
      · rw [if_neg hf]
        exact ⟨hinv o hmem, fun hn => hn⟩

/-- The resolver-sequence invariants, by induction over the steps. -/
theorem resolver_ops_props (ops : List ResolverOp) :
    ∀ (os : List (WorldObject ℝ)), (∀ o ∈ os, InvO o) →
      (applyResolverOps os ops).length = os.length ∧
      (∀ (i : ℕ) (o : WorldObject ℝ), os[i]? = some o → o.consumed = true →
        (applyResolverOps os ops)[i]? = some o) ∧
      (∀ o' ∈ applyResolverOps os ops, InvO o') ∧
      (∀ (i : ℕ) (o o' : WorldObject ℝ), os[i]? = some o →
        (applyResolverOps os ops)[i]? = some o' →
        o.state ≠ ObjectState.Normal → o'.state ≠ ObjectState.Normal) := by
  induction ops with
  | nil =>
    intro os hinv
    refine ⟨rfl, fun i o ho _ => ho, hinv, ?_⟩
    intro i o o' ho ho' hn
    have ho'' : os[i]? = some o' := ho'
    have heq : o = o' := by rw [ho] at ho''; exact Option.some.inj ho''
    rw [← heq]
    exact hn
  | cons op rest ih =>
    intro os hinv
    have hstep := resolver_step_props op os hinv
    have hunf : applyResolverOps os (op :: rest) =
        applyResolverOps (applyResolverOp os op) rest := rfl
    have hinv₁ : ∀ o ∈ applyResolverOp os op, InvO o := by
      intro o' ho'
      obtain ⟨i, hi⟩ := List.mem_iff_getElem?.mp ho'
      have hilen : i < os.length := by
        rw [← hstep.1]
        exact (List.getElem?_eq_some_iff.mp hi).1
      have ho : os[i]? = some os[i] := List.getElem?_eq_getElem hilen
      exact (hstep.2.2 i os[i] o' ho hi).1
    obtain ⟨hl, hf, hiv, hnr⟩ := ih (applyResolverOp os op) hinv₁
    rw [hunf]
    refine ⟨by rw [hl, hstep.1], ?_, hiv, ?_⟩
    · intro i o ho hc
      exact hf i o (hstep.2.1 i o ho hc) hc
    · intro i o o'' ho ho'' hn
      have hilen : i < (applyResolverOp os op).length := by
        have h2 : i < (applyResolverOps (applyResolverOp os op) rest).length :=
          (List.getElem?_eq_some_iff.mp ho'').1
        rw [hl] at h2
        exact h2
      have ho₁ : (applyResolverOp os op)[i]? =
          some (applyResolverOp os op)[i] := List.getElem?_eq_getElem hilen
      have h3 := (hstep.2.2 i o (applyResolverOp os op)[i] ho ho₁).2 hn
      exact hnr i (applyResolverOp os op)[i] o'' ho₁ ho'' h3

/-- C10: the swallow resolver's object transitions are one-directional
(Normal → Falling → Consumed): under any sequence of resolver steps a
consumed object stays exactly as it is forever, the consumed-implies-
Consumed invariant is preserved, no object re-enters Normal, and consumed
objects are excluded from spatial grid builds. -/
theorem world_object_transitions_one_directional (ops : List ResolverOp)
    (os : List (WorldObject ℝ)) (hinv : ∀ o ∈ os, InvO o) :
    (∀ (i : ℕ) (o : WorldObject ℝ), os[i]? = some o → o.consumed = true →
      (applyResolverOps os ops)[i]? = some o) ∧
    (∀ o' ∈ applyResolverOps os ops, InvO o') ∧
    (∀ (i : ℕ) (o o' : WorldObject ℝ), os[i]? = some o →
      (applyResolverOps os ops)[i]? = some o' →
      o.state ≠ ObjectState.Normal → o'.state ≠ ObjectState.Normal) ∧
    (∀ (objects : List (WorldObject ℝ)) (i : ℕ) (o : WorldObject ℝ)
       (c : CellCoord), objects[i]? = some o → o.consumed = true →
       i ∉ SpatialGrid.build objects c) := by
  obtain ⟨-, hf, hiv, hnr⟩ := resolver_ops_props ops os hinv
  refine ⟨hf, hiv, hnr, ?_⟩
  intro objects i o c ho hc hmem
  obtain ⟨o', ho', hc', -⟩ := (mem_build objects i c).mp hmem
  rw [ho] at ho'
  have heq : o = o' := Option.some.inj ho'
  rw [← heq, hc] at hc'
  simp at hc'

/-- A lookup not inserted by the save loop falls through to the old map. -/
theorem savePrevAux_notin :
    ∀ (es : List LeaderboardEntry) (m : PrevRanks) (i n : ℕ),
      n ∉ es.map LeaderboardEntry.id → savePrevAux m es i n = m n := by
  intro es
  induction es with
  | nil => intro m i n _; rfl
  | cons e rest ih =>
    intro m i n hn
    rw [List.map_cons, List.mem_cons] at hn
    push_neg at hn
    unfold savePrevAux
    rw [ih _ _ _ hn.2]
    unfold PrevRanks.insert
    rw [if_neg hn.1]

/-- With duplicate-free ids, the save loop records each entry's index. -/
theorem savePrevAux_lookup :
    ∀ (es : List LeaderboardEntry) (m : PrevRanks) (i j : ℕ)
      (e : LeaderboardEntry),
      (es.map LeaderboardEntry.id).Nodup → es[j]? = some e →
      savePrevAux m es i e.id = some (i + j) := by
  intro es
  induction es with
  | nil => intro m i j e _ hj; simp at hj
  | cons f rest ih =>
    intro m i j e hnodup hj
    rw [List.map_cons, List.nodup_cons] at hnodup
    cases j with
    | zero =>
      have : f = e := by simpa using hj
      subst this
      unfold savePrevAux
      rw [savePrevAux_notin rest _ _ _ hnodup.1]
      unfold PrevRanks.insert
      rw [if_pos rfl]
      simp
    | succ j' =>
      have hj' : rest[j']? = some e := by simpa using hj
      have hih := ih (m.insert f.id i) (i + 1) j' e hnodup.2 hj'
      unfold savePrevAux
      rw [hih]
      congr 1
      omega

/-- Membership through stable insertion. -/
theorem mem_insertBySize {e f : LeaderboardEntry} :
    ∀ l : List LeaderboardEntry, f ∈ insertBySize e l ↔ f = e ∨ f ∈ l := by
  intro l
  induction l with
  | nil => simp [insertBySize]
  | cons g gs ih =>
    unfold insertBySize
    split_ifs with hg
    · simp [List.mem_cons]
    · rw [List.mem_cons, ih, List.mem_cons]
      tauto

/-- Sorting does not change the set of entries. -/
theorem mem_sortBySize {f : LeaderboardEntry} (es : List LeaderboardEntry) :
    f ∈ sortBySize es ↔ f ∈ es := by
  suffices h : ∀ (es acc : List LeaderboardEntry),
      f ∈ es.foldl (fun acc e => insertBySize e acc) acc ↔ f ∈ acc ∨ f ∈ es by
    unfold sortBySize
    rw [h es []]
    simp
  intro es
  induction es with
  | nil => intro acc; simp
  | cons e rest ih =>
    intro acc
    rw [List.foldl_cons, ih, mem_insertBySize, List.mem_cons]
    tauto

/-- Index-wise description of the rank-change pass. -/
theorem assignChanges_getElem (prev : PrevRanks) (es : List LeaderboardEntry)
    (k : ℕ) :
    (assignChanges prev es)[k]? = (es[k]?).map (fun e =>
      match prev e.id with
      | some old =>
        if k < old then { e with rank_change := 1 }
        else if old < k then { e with rank_change := -1 }
        else e
      | none => e) := by
  unfold assignChanges
  rw [List.getElem?_map, List.getElem?_enum]
  cases es[k]? <;> rfl

/-- The two components of `Leaderboard::update`. -/
theorem update_entries (lb : Leaderboard) (holes : List Hole) :
    (lb.update holes).entries =
      assignChanges (savePrevAux lb.previous_ranks lb.entries 0)
        (sortBySize ((holes.filter (fun h => h.is_alive)).map mkEntry)) := rfl

/-- The previous-ranks map after `Leaderboard::update`. -/
theorem update_previous_ranks (lb : Leaderboard) (holes : List Hole) :
    (lb.update holes).previous_ranks =
      savePrevAux lb.previous_ranks lb.entries 0 := rfl

/-- The rank-change pass keeps ids. -/
theorem assignChanges_id (prev : PrevRanks) (k : ℕ) (e : LeaderboardEntry) :
    (match prev e.id with
      | some old =>
        if k < old then { e with rank_change := 1 }
        else if old < k then { e with rank_change := -1 }
        else e
      | none => e : LeaderboardEntry).id = e.id := by
  cases prev e.id with
  | none => rfl
  | some old => simp only []; split_ifs <;> rfl

/-- C9: an entry that moves from rank 3 (index 2) to rank 1 (index 0)
between two consecutive `update` calls reports `rank_change = 1`, and an
entry whose id has no previously recorded rank reports `rank_change = 0` on
its first appearance. -/
theorem leaderboard_rank_change_spec (lb : Leaderboard)
    (holes₁ holes₂ : List Hole) (n : ℕ) :
    (∀ e f : LeaderboardEntry,
      ((lb.update holes₁).entries.map LeaderboardEntry.id).Nodup →
      (lb.update holes₁).entries[2]? = some e → e.id = n →
      ((lb.update holes₁).update holes₂).entries[0]? = some f → f.id = n →
      f.rank_change = 1) ∧
    (∀ f : LeaderboardEntry,
      lb.previous_ranks n = none →
      n ∉ lb.entries.map LeaderboardEntry.id →
      f ∈ (lb.update holes₁).entries → f.id = n →
      f.rank_change = 0) := by
  constructor
  · intro e f hnodup he hei hf hfi
    have hprev : savePrevAux (lb.update holes₁).previous_ranks
        (lb.update holes₁).entries 0 n = some 2 := by
      have := savePrevAux_lookup (lb.update holes₁).entries
        (lb.update holes₁).previous_ranks 0 2 e hnodup he
      rw [hei] at this
      exact this
    rw [update_entries, assignChanges_getElem] at hf
    obtain ⟨f₀, hf₀, hgf⟩ := Option.map_eq_some'.mp hf
    have hid : f.id = f₀.id := by
      rw [← hgf]
      exact assignChanges_id _ 0 f₀
    have hf₀n : f₀.id = n := by rw [← hid]; exact hfi
    rw [hf₀n, hprev] at hgf
    simp only [] at hgf
    rw [if_pos (by norm_num)] at hgf
    rw [← hgf]
  · intro f hnone hnotin hf hfi
    rw [update_entries] at hf
    unfold assignChanges at hf
    obtain ⟨p, hp, hgf⟩ := List.mem_map.mp hf
    simp only [] at hgf
    have hpmem : _ := List.mem_enum_iff_getElem?.mp hp
    have hid : f.id = p.2.id := by
      rw [← hgf]
      exact assignChanges_id _ p.1 p.2
    have hp2n : p.2.id = n := by rw [← hid]; exact hfi
    have hprevnone : savePrevAux lb.previous_ranks lb.entries 0 n = none := by
      rw [savePrevAux_notin lb.entries _ _ _ hnotin]
      exact hnone
    rw [hp2n, hprevnone] at hgf
    have hzero : p.2.rank_change = 0 := by
      have hmem : p.2 ∈ sortBySize
          ((holes₁.filter (fun h => h.is_alive)).map mkEntry) := by
        rw [List.mem_iff_getElem?]
        exact ⟨p.1, hpmem⟩
      rw [mem_sortBySize] at hmem
      obtain ⟨h, -, hmk⟩ := List.mem_map.mp hmem
      rw [← hmk]
      rfl
    rw [← hgf]
    exact hzero

/-- Witness for C9: ids 1/2/3 at sizes 100/90/80, then hole 3 regrows to
size 150 and moves from rank 3 to rank 1 with `rank_change = 1`. -/
theorem leaderboard_rank_change_witness :
    ((Leaderboard.new.update [lbHole1, lbHole2, lbHole3]).entries.map
        LeaderboardEntry.id).Nodup ∧
    (Leaderboard.new.update [lbHole1, lbHole2, lbHole3]).entries[2]? =
      some (mkEntry lbHole3) ∧
    ((Leaderboard.new.update [lbHole1, lbHole2, lbHole3]).update
        [lbHole1, lbHole2, lbHole3b]).entries[0]? =
      some { mkEntry lbHole3b with rank_change := 1 } ∧
    ({ mkEntry lbHole3b with rank_change := 1 } : LeaderboardEntry).rank_change
      = 1 := by
  have hE : (Leaderboard.new.update [lbHole1, lbHole2, lbHole3]).entries =
      [mkEntry lbHole1, mkEntry lbHole2, mkEntry lbHole3] := by
    rw [update_entries]
    norm_num [Leaderboard.new, savePrevAux, sortBySize, insertBySize,
      assignChanges, List.filter, mkEntry, lbHole1, lbHole2, lbHole3,
      mkTestHole, List.enum, List.enumFrom]
  have hF : ((Leaderboard.new.update [lbHole1, lbHole2, lbHole3]).update
      [lbHole1, lbHole2, lbHole3b]).entries[0]? =
      some { mkEntry lbHole3b with rank_change := 1 } := by
    rw [update_entries, hE, update_previous_ranks]
    norm_num [Leaderboard.new, savePrevAux, PrevRanks.insert, sortBySize,
      insertBySize, assignChanges, List.filter, mkEntry, lbHole1, lbHole2,
      lbHole3, lbHole3b, mkTestHole, List.enum, List.enumFrom]
  have hnodup : ((Leaderboard.new.update
      [lbHole1, lbHole2, lbHole3]).entries.map LeaderboardEntry.id).Nodup := by
    rw [hE]
    norm_num [mkEntry, lbHole1, lbHole2, lbHole3, mkTestHole]
  have he : (Leaderboard.new.update [lbHole1, lbHole2, lbHole3]).entries[2]? =
      some (mkEntry lbHole3) := by
    rw [hE]
    rfl
  refine ⟨hnodup, he, hF, ?_⟩
  exact (leaderboard_rank_change_spec Leaderboard.new
    [lbHole1, lbHole2, lbHole3] [lbHole1, lbHole2, lbHole3b] 3).1
    (mkEntry lbHole3) { mkEntry lbHole3b with rank_change := 1 }
    hnodup he rfl hF rfl

/-- Witness for C10: one falling pass over a consumed object, which stays
untouched. -/
theorem world_object_transitions_witness :
    (∀ o ∈ [testObjConsumed], InvO o) ∧
    (applyResolverOps [testObjConsumed] [ResolverOp.fall testHole 1])[0]? =
      some testObjConsumed := by
  have hinv : ∀ o ∈ [testObjConsumed], InvO o := by
    intro o ho
    rw [List.mem_singleton] at ho
    subst ho
    intro _
    rfl
  exact ⟨hinv, (world_object_transitions_one_directional
    [ResolverOp.fall testHole 1] [testObjConsumed] hinv).1 0 testObjConsumed
    rfl rfl⟩

/-- Shifting ids does not move the rng position. -/
theorem shiftSt_k (d : ℕ) (st : GenSt) : (shiftSt d st).k = st.k := rfl

/-- Shifting ids does not change the blocks. -/
theorem shiftSt_blocks (d : ℕ) (st : GenSt) :
    (shiftSt d st).blocks = st.blocks := rfl

/-- Updating the rng position commutes with the id shift. -/
theorem shiftSt_setk (d : ℕ) (st : GenSt) (n : ℕ) :
    ({ shiftSt d st with k := n } : GenSt) = shiftSt d { st with k := n } :=
  rfl

/-- Shifted objects, explicitly. -/
theorem shiftSt_objs (d : ℕ) (st : GenSt) :
    (shiftSt d st).objs = st.objs.map (fun o => { o with id := o.id + d }) :=
  rfl

/-- Shifted id counter, explicitly. -/
theorem shiftSt_nid (d : ℕ) (st : GenSt) : (shiftSt d st).nid = st.nid + d :=
  rfl

/-- Folding a state literal with shifted objects and counter back into a
`shiftSt` application. -/
theorem shiftSt_mk (d : ℕ) (objs : List (WorldObject ℝ))
    (blocks : List Block) (k nid : ℕ) :
    (⟨objs.map (fun o => { o with id := o.id + d }), blocks, k, nid + d⟩ :
      GenSt) = shiftSt d ⟨objs, blocks, k, nid⟩ := rfl

/-- Pushing an object whose only id dependence is its id field commutes
with the id shift. -/
theorem equi_pushObj (d : ℕ) (f : ℕ → WorldObject ℝ) (st : GenSt)
    (hf : ∀ n, ({ f n with id := (f n).id + d } : WorldObject ℝ) = f (n + d)) :
    pushObj f (shiftSt d st) = shiftSt d (pushObj f st) := by
  unfold pushObj shiftSt
  simp only [List.map_append, List.map_cons, List.map_nil]
  rw [hf st.nid]
  have hnid : st.nid + d + 1 = st.nid + 1 + d := by omega
  rw [hnid]

/-- `WorldObject::new` commutes with the id shift. -/
theorem equi_newObject (s : ℕ → ℝ) (x y : ℝ) (t : ObjectType) (d : ℕ)
    (st : GenSt) :
    newObject s x y t (shiftSt d st) = shiftSt d (newObject s x y t st) := by
  unfold newObject randRange rand
  simp only [shiftSt_k, shiftSt_setk]
  exact equi_pushObj d _ _ (fun n => rfl)

/-- `WorldObject::new_building` commutes with the id shift. -/
theorem equi_newBuilding (s : ℕ → ℝ) (x y w h : ℝ) (d : ℕ) (st : GenSt) :
    newBuilding s x y w h (shiftSt d st) =
      shiftSt d (newBuilding s x y w h st) := by
  unfold newBuilding randRange
  simp only [shiftSt_k, shiftSt_setk]
  exact equi_pushObj d _ _ (fun n => rfl)

/-- Iterating a commuting step commutes with the id shift. -/
theorem equi_iterSteps (f : GenSt → GenSt)
    (hf : ∀ d st, f (shiftSt d st) = shiftSt d (f st)) (d : ℕ) :
    ∀ (n : ℕ) (st : GenSt),
      iterSteps f n (shiftSt d st) = shiftSt d (iterSteps f n st) := by
  intro n
  induction n with
  | zero => intro st; rfl
  | succ m ih =>
    intro st
    unfold iterSteps
    rw [hf, ih]

/-- Folding commuting steps commutes with the id shift. -/
theorem equi_foldl {β : Type} (l : List β) (F : GenSt → β → GenSt)
    (hF : ∀ x ∈ l, ∀ d st, F (shiftSt d st) x = shiftSt d (F st x)) (d : ℕ) :
    ∀ st : GenSt, l.foldl F (shiftSt d st) = shiftSt d (l.foldl F st) := by
  induction l with
  | nil => intro st; rfl
  | cons x rest ih =>
    intro st
    simp only [List.foldl_cons]
    rw [hF x (List.mem_cons_self x rest), ih
      (fun y hy => hF y (List.mem_cons_of_mem x hy))]

/-- One tree commutes with the id shift. -/
theorem equi_treeStep (s : ℕ → ℝ) (x y w h : ℝ) (d : ℕ) (st : GenSt) :
    treeStep s x y w h (shiftSt d st) = shiftSt d (treeStep s x y w h st) := by
  unfold treeStep rand
  simp only [shiftSt_k, shiftSt_setk]
  exact equi_newObject s _ _ _ d _

/-- One bench commutes with the id shift. -/
theorem equi_benchStep (s : ℕ → ℝ) (x y w h : ℝ) (d : ℕ) (st : GenSt) :
    benchStep s x y w h (shiftSt d st) =
      shiftSt d (benchStep s x y w h st) := by
  unfold benchStep rand
  simp only [shiftSt_k, shiftSt_setk]
  exact equi_newObject s _ _ _ d _

/-- One building commutes with the id shift. -/
theorem equi_buildingStep (s : ℕ → ℝ) (x y w h : ℝ) (count i : ℕ) (d : ℕ)
    (st : GenSt) :
    buildingStep s x y w h count i (shiftSt d st) =
      shiftSt d (buildingStep s x y w h count i st) := by
  unfold buildingStep
  exact equi_newBuilding s _ _ _ _ d st

/-- One block commutes with the id shift. -/
theorem equi_genBlock (s : ℕ → ℝ) (bx by_ : ℕ) (d : ℕ) (st : GenSt) :
    genBlock s bx by_ (shiftSt d st) = shiftSt d (genBlock s bx by_ st) := by
  unfold genBlock rand randNat
  simp only [shiftSt_k, shiftSt_blocks, shiftSt_objs, shiftSt_nid]
  split_ifs with hpark
  · rw [shiftSt_mk, equi_iterSteps _ (equi_treeStep s _ _ _ _) d]
    simp only [shiftSt_k, shiftSt_blocks, shiftSt_objs, shiftSt_nid]
    rw [shiftSt_mk, equi_iterSteps _ (equi_benchStep s _ _ _ _) d]
  · rw [shiftSt_mk,
      equi_foldl _ _ (fun i _ d st => equi_buildingStep s _ _ _ _ _ i d st) d]

/-- The block scan commutes with the id shift. -/
theorem equi_genBlocks (s : ℕ → ℝ) (d : ℕ) (st : GenSt) :
    genBlocks s (shiftSt d st) = shiftSt d (genBlocks s st) := by
  unfold genBlocks
  exact equi_foldl _ _
    (fun by_ _ d st => equi_foldl _ _
      (fun bx _ d st => equi_genBlock s bx by_ d st) d st) d st

/-- One lamppost roll commutes with the id shift. -/
theorem equi_lampStep (s : ℕ → ℝ) (lx ly : ℝ) (d : ℕ) (st : GenSt) :
    lampStep s lx ly (shiftSt d st) = shiftSt d (lampStep s lx ly st) := by
  unfold lampStep rand
  simp only [shiftSt_k, shiftSt_setk]
  split_ifs with hroll
  · exact equi_newObject s _ _ _ d _
  · rfl

/-- The lamppost loop commutes with the id shift. -/
theorem equi_genLamps (s : ℕ → ℝ) (street : Street) (d : ℕ) (st : GenSt) :
    genLamps s street (shiftSt d st) = shiftSt d (genLamps s street st) := by
  unfold genLamps
  split_ifs with hdir
  · exact equi_foldl _ _ (fun k _ d st => equi_lampStep s _ _ d st) d st
  · exact equi_foldl _ _ (fun k _ d st => equi_lampStep s _ _ d st) d st

/-- One car commutes with the id shift. -/
theorem equi_carStep (s : ℕ → ℝ) (street : Street) (d : ℕ) (st : GenSt) :
    carStep s street (shiftSt d st) = shiftSt d (carStep s street st) := by
  unfold carStep rand
  split_ifs with hdir <;>
    · simp only [shiftSt_k, shiftSt_setk]
      exact equi_newObject s _ _ _ d _

/-- One pedestrian commutes with the id shift. -/
theorem equi_personStep (s : ℕ → ℝ) (street : Street) (d : ℕ) (st : GenSt) :
    personStep s street (shiftSt d st) = shiftSt d (personStep s street st) := by
  unfold personStep rand
  simp only [shiftSt_k, shiftSt_setk]
  exact equi_newObject s _ _ _ d _

/-- The street furniture of one street commutes with the id shift. -/
theorem equi_genStreetObjects (s : ℕ → ℝ) (street : Street) (d : ℕ)
    (st : GenSt) :
    genStreetObjects s street (shiftSt d st) =
      shiftSt d (genStreetObjects s street st) := by
  simp only [genStreetObjects, randNat]
  rw [equi_genLamps]
  split_ifs with hav
  · simp only [shiftSt_k, shiftSt_blocks, shiftSt_objs, shiftSt_nid]
    rw [shiftSt_mk, equi_iterSteps _ (equi_carStep s street) d]
    simp only [shiftSt_k, shiftSt_blocks, shiftSt_objs, shiftSt_nid]
    rw [shiftSt_mk, equi_iterSteps _ (equi_personStep s street) d]
  · simp only [shiftSt_k, shiftSt_blocks, shiftSt_objs, shiftSt_nid]
    rw [shiftSt_mk, equi_iterSteps _ (equi_personStep s street) d]

/-- One misc prop commutes with the id shift. -/
theorem equi_miscStep (s : ℕ → ℝ) (d : ℕ) (st : GenSt) :
    miscStep s (shiftSt d st) = shiftSt d (miscStep s st) := by
  unfold miscStep rand
  simp only [shiftSt_k, shiftSt_setk]
  exact equi_newObject s _ _ _ d _

/-- The whole random pipeline commutes with the id shift. -/
theorem equi_genPipeline (s : ℕ → ℝ) (d : ℕ) (st : GenSt) :
    genPipeline s (shiftSt d st) = shiftSt d (genPipeline s st) := by
  unfold genPipeline
  rw [equi_genBlocks,
    equi_foldl _ _ (fun street _ d st => equi_genStreetObjects s street d st) d,
    equi_iterSteps _ (equi_miscStep s) d]

/-- Unfolding of `generateWith` (pure bookkeeping around the pipeline). -/
theorem generateWith_eq (s : ℕ → ℝ) (n : ℕ) :
    World.generateWith s n =
      ({ streets := genStreets,
         blocks :=
           (genPipeline s { objs := [], blocks := [], k := 0, nid := n }).blocks,
         objects :=
           (genPipeline s { objs := [], blocks := [], k := 0, nid := n }).objs,
         width := 2000, height := 2000 },
       (genPipeline s { objs := [], blocks := [], k := 0, nid := n }).nid) :=
  rfl

/-- C4: `generate` is deterministic in the seed: two runs with the same
seed (hence the same rng stream), differing only in the process-wide object
id counter, produce the same streets, the same park flag on every block,
and objects with identical positions and types in the same order. -/
theorem generate_deterministic (s : ℕ → ℝ) (n₁ n₂ : ℕ) :
    (World.generateWith s n₁).1.streets = (World.generateWith s n₂).1.streets ∧
    (World.generateWith s n₁).1.blocks.map Block.is_park =
      (World.generateWith s n₂).1.blocks.map Block.is_park ∧
    (World.generateWith s n₁).1.objects.map (fun o => (o.x, o.y)) =
      (World.generateWith s n₂).1.objects.map (fun o => (o.x, o.y)) ∧
    (World.generateWith s n₁).1.objects.map WorldObject.obj_type =
      (World.generateWith s n₂).1.objects.map WorldObject.obj_type := by
  have hinit : ∀ n : ℕ, ({ objs := [], blocks := [], k := 0, nid := n } : GenSt)
      = shiftSt n { objs := [], blocks := [], k := 0, nid := 0 } := by
    intro n
    unfold shiftSt
    simp
  have hkey : ∀ n : ℕ,
      genPipeline s { objs := [], blocks := [], k := 0, nid := n } =
        shiftSt n (genPipeline s { objs := [], blocks := [], k := 0, nid := 0 }) := by
    intro n
    rw [hinit n, equi_genPipeline]
  have hblocks : ∀ n : ℕ, (World.generateWith s n).1.blocks =
      (genPipeline s { objs := [], blocks := [], k := 0, nid := 0 }).blocks := by
    intro n
    simp only [generateWith_eq]
    rw [hkey n, shiftSt_blocks]
  have hobjs : ∀ n : ℕ, (World.generateWith s n).1.objects =
      (genPipeline s { objs := [], blocks := [], k := 0, nid := 0 }).objs.map
        (fun o => { o with id := o.id + n }) := by
    intro n
    simp only [generateWith_eq]
    rw [hkey n, shiftSt_objs]
  refine ⟨?_, ?_, ?_, ?_⟩
  · simp only [generateWith_eq]
  · rw [hblocks n₁, hblocks n₂]
  · rw [hobjs n₁, hobjs n₂, List.map_map, List.map_map]
    rfl
  · rw [hobjs n₁, hobjs n₂, List.map_map, List.map_map]
    rfl

end HoleGame
